import Mathlib

/-!
# Verification of the powermeter-utils core

Shallow embedding of the repository's core (`src/unnamed/part_000`, a
TypeScript module): the protocol client's termination test, the measurement
parser (`processMeasurements`), the sharded range reads
(`getMeasurementsFromDBs`, `getYearlyMeasurementsFromDBs`), the aggregation
engine (`getDetails` with its helpers `initPrevElement`, `calcDiff`,
`checkDaylyEnabled`, `checkMonthlyEnabled`, `appendLastElement`) and the
summary reducer (`getAvgSum`).

Embedding conventions:
* JS `number` values carried by measurements are embedded as `ℚ`; unix
  timestamps as `ℕ` (seconds).
* dayjs calls that zero out calendar fields are embedded as naive unix
  truncation (the source calls them on local-mode dayjs objects with the
  `.tz()` conversions commented out; the embedding fixes the host clock to
  UTC, so local time = naive unix time).
* The four formatted timestamp strings `calcDiff` stores
  (`from_utc_time`, …) are pure renderings of two unix seconds; the
  embedding keeps those two raw unix values (`from_time`, `to_time`)
  instead of their textual formats.
* JS sparse arrays indexed by channel are embedded as `Nat → Option _`
  when they are only indexed (`prevElement`), and as association lists
  sorted by key when they are iterated with `forEach` (`lastElement`),
  matching JS index-order iteration that skips holes.
-/

namespace Powermeter

/-- `Measurement` rows as stored in a shard
(interface `Measurement` in the source: id, recorded_time, measured_value, channel). -/
structure Measurement where
  id : Nat
  recorded_time : Nat
  measured_value : ℚ
  channel : Nat
deriving DecidableEq

/-- `RecElement` records produced by the aggregation engine.  The source's
eight optional formatted time strings are embedded as the two raw unix
boundary times they render (`from_time` = interval start, `to_time` =
interval end). -/
structure RecElement where
  recorded_time : Nat
  measured_value : ℚ
  channel : Nat
  diff : Option ℚ
  from_time : Option Nat
  to_time : Option Nat
deriving DecidableEq

/-- JS `Math.round`: round half up (toward `+∞`), i.e. `⌊x + 1/2⌋`.
(`Math.round(-0.5)` is `-0` in JS, i.e. `0`.) -/
def jsRound (q : ℚ) : ℤ := ⌊q + 1/2⌋

/-- Source `roundToFourDecimals`: `Math.round(value * 10000) / 10000`. -/
def roundToFourDecimals (value : ℚ) : ℚ := (jsRound (value * 10000) : ℚ) / 10000

/-- Rounding half away from zero at the fourth decimal digit, written from
the spec's words (§4.4: "round-half-away-from-zero at the 4th digit") for
comparison with the source's `roundToFourDecimals`. -/
def roundHalfAwayFromZero4 (value : ℚ) : ℚ :=
  (if 0 ≤ value then (⌊value * 10000 + 1/2⌋ : ℚ) else (⌈value * 10000 - 1/2⌉ : ℚ)) / 10000

/-! ## Protocol client termination (`getMeasurementsFromPowerMeter`, data handler) -/

/-- JS `String.prototype.indexOf`: index of the first occurrence of
`needle` in `haystack`, `-1` if there is none. -/
def strIndexOf (haystack needle : List Char) : Int :=
  match haystack with
  | [] => if needle.isEmpty then 0 else -1
  | _ :: t =>
    if needle.isPrefixOf haystack then 0
    else
      let r := strIndexOf t needle
      if r < 0 then -1 else r + 1

/-- The sentinel substring the protocol client looks for in the
accumulated response buffer. -/
def sentinel : List Char := "channel_13".toList

/-- The data handler's termination test (source line
`if (response.indexOf("channel_13") > 0) client.end()`): the session is
ended exactly when this returns `true` for the accumulated buffer. -/
def responseTerminates (response : List Char) : Bool :=
  strIndexOf response sentinel > 0

/-! ## Calendar arithmetic (naive unix truncation, UTC host) -/

/-- Ingestion timestamp truncation (`processMeasurements`):
`set("minute", 0).set("second", 0).set("millisecond", 0)` — truncate unix
seconds to the top of the hour. -/
def hourTrunc (t : Nat) : Nat := t / 3600 * 3600

/-- `set("hour", 0).set("minute", 0).set("second", 0)` on a unix time:
truncate to the start of the calendar day. -/
def dayStart (t : Nat) : Nat := t / 86400 * 86400

/-- Civil date (year, month, day) of a day count since 1970-01-01
(proleptic Gregorian; Howard Hinnant's era-based algorithm, valid for all
`z ≥ 0`, i.e. dates from 1970 on). -/
def civilFromDays (z : Nat) : Nat × Nat × Nat :=
  let z' := z + 719468
  let era := z' / 146097
  let doe := z' % 146097
  let yoe := (doe - doe / 1460 + doe / 36524 - doe / 146096) / 365
  let doy := doe - (365 * yoe + yoe / 4 - yoe / 100)
  let mp := (5 * doy + 2) / 153
  let d := doy - (153 * mp + 2) / 5 + 1
  let m := if mp < 10 then mp + 3 else mp - 9
  (era * 400 + yoe + (if m ≤ 2 then 1 else 0), m, d)

/-- Year of a unix time (naive). -/
def yearOfUnix (t : Nat) : Nat := (civilFromDays (t / 86400)).1

/-- Linear month index of a unix time (naive): `12 * year + month`.
Two unix times fall in the same calendar month iff their indices agree,
and the whole-month difference between their calendar-month starts is the
difference of their indices. -/
def monthIndex (t : Nat) : Nat :=
  let c := civilFromDays (t / 86400)
  12 * c.1 + c.2.1

/-! ## Aggregation engine (`getDetails` and helpers) -/

/-- Source `checkDaylyEnabled`: truncate both the current element's time
and the channel's baseline time (`prevElement[element.channel]`, passed
here as the looked-up record `prev`) to day starts and test whether the
dayjs whole-day difference is at least 1.  Both operands are exact
multiples of 86400 s, so dayjs's truncated floating-point day difference
is the exact integer quotient. -/
def checkDaylyEnabled (element : Measurement) (prev : RecElement) : Bool :=
  let roundedPrevDay := dayStart prev.recorded_time
  let roundedDay := dayStart element.recorded_time
  let diffDays : Int := ((roundedDay : Int) - (roundedPrevDay : Int)) / 86400
  1 ≤ diffDays

/-- Source `checkMonthlyEnabled`: truncate both times to calendar-month
starts (`set("date", 1).set("hour", 0)…`) and test whether the dayjs
fractional month difference is at least 0.9.  Between two exact
calendar-month starts dayjs's fractional `diff(…, "months", true)` has a
zero remainder (the whole-month anchor lands exactly on the other month
start), so it equals the whole month-index difference. -/
def checkMonthlyEnabled (element : Measurement) (prev : RecElement) : Bool :=
  let diffMonths : ℚ := (monthIndex element.recorded_time : ℚ) - (monthIndex prev.recorded_time : ℚ)
  (9 : ℚ) / 10 ≤ diffMonths

/-- Source `initPrevElement`: the baseline record created for a channel's
first observation (diff 0, no interval boundaries yet). -/
def initPrevElement (element : Measurement) : RecElement :=
  { recorded_time := element.recorded_time
    measured_value := element.measured_value
    channel := element.channel
    diff := some 0
    from_time := none
    to_time := none }

/-- Source `calcDiff`: build the derived record for an interval ending at
the given reading, against the channel's baseline `prev`: diff =
`roundToFourDecimals(value − baseline.value)`, with the interval
boundaries `prev.recorded_time` (start) and `recorded_time` (end); the
source stores those two unix times rendered in four timezone formats. -/
def calcDiff (recorded_time : Nat) (measured_value : ℚ) (channel : Nat)
    (prev : RecElement) : RecElement :=
  { recorded_time := recorded_time
    measured_value := measured_value
    channel := channel
    diff := some (roundToFourDecimals (measured_value - prev.measured_value))
    from_time := some prev.recorded_time
    to_time := some recorded_time }

/-- Sorted-by-key association list standing for a JS sparse array that is
iterated with `forEach` (iteration visits indices in increasing order and
skips holes). -/
def alSet : List (Nat × RecElement) → Nat → RecElement → List (Nat × RecElement)
  | [], k, v => [(k, v)]
  | (k', v') :: t, k, v =>
    if k < k' then (k, v) :: (k', v') :: t
    else if k = k' then (k, v) :: t
    else (k', v') :: alSet t k v

/-- The mutable locals of `getDetails`, threaded through the
`measurements.forEach` loop. -/
structure DetailsState where
  result : List RecElement
  prevElement : Nat → Option RecElement
  lastElement : List (Nat × RecElement)
  isAddableEntry : Bool
  isDailyEnabled : Bool
  isMonthlyEnabled : Bool
  prevRecTime : Nat

/-- Initial state of `getDetails` (empty result, empty sparse arrays, all
flags false, `prevRecTime = 0`). -/
def detailsInit : DetailsState :=
  { result := []
    prevElement := fun _ => none
    lastElement := []
    isAddableEntry := false
    isDailyEnabled := false
    isMonthlyEnabled := false
    prevRecTime := 0 }

/-- One iteration of the `measurements.forEach` loop of `getDetails`:
first observation of a channel initialises its baseline (and is pushed as
a zero-diff record when `isAggregation`); otherwise the eligibility flags
are recomputed when the timestamp changed, and an eligible reading emits
`calcDiff` and resets the channel's baseline.  `lastElement` always tracks
the channel's latest reading (else-branch only, as in the source). -/
def detailsStep (isHourlyEnabled isDaily isMonthly isAggregation : Bool)
    (s : DetailsState) (element : Measurement) : DetailsState :=
  match s.prevElement element.channel with
  | none =>
    let pe := initPrevElement element
    { s with
      prevElement := fun c => if c = element.channel then some pe else s.prevElement c
      prevRecTime := element.recorded_time
      result := s.result ++ if isAggregation then [pe] else [] }
  | some prev =>
    let isChangedTime := s.prevRecTime ≠ element.recorded_time
    let isDailyEnabled :=
      if isChangedTime then isDaily && checkDaylyEnabled element prev else s.isDailyEnabled
    let isMonthlyEnabled :=
      if isChangedTime then isMonthly && checkMonthlyEnabled element prev else s.isMonthlyEnabled
    let isAddableEntry := isHourlyEnabled || isDailyEnabled || isMonthlyEnabled
    let newPrev := calcDiff element.recorded_time element.measured_value element.channel prev
    { result := if isAddableEntry then s.result ++ [newPrev] else s.result
      prevElement :=
        if isAddableEntry then
          fun c => if c = element.channel then some newPrev else s.prevElement c
        else s.prevElement
      lastElement := alSet s.lastElement element.channel
        { recorded_time := element.recorded_time
          measured_value := element.measured_value
          channel := element.channel
          diff := none, from_time := none, to_time := none }
      isAddableEntry := isAddableEntry
      isDailyEnabled := isDailyEnabled
      isMonthlyEnabled := isMonthlyEnabled
      prevRecTime := element.recorded_time }

/-- The state after the main `forEach` loop of `getDetails`. -/
def getDetailsLoop (measurements : List Measurement)
    (isHourlyEnabled isDaily isMonthly isAggregation : Bool) : DetailsState :=
  measurements.foldl (detailsStep isHourlyEnabled isDaily isMonthly isAggregation) detailsInit

/-- Source `appendLastElement`: flush one record per `lastElement` entry
(in channel order), each the `calcDiff` of the channel's last-seen reading
against its baseline; a missing baseline is caught and the entry skipped
(the source wraps the body in try/catch). -/
def appendLastElement (prevElement : Nat → Option RecElement) :
    List (Nat × RecElement) → List RecElement
  | [] => []
  | (_, el) :: rest =>
    match prevElement el.channel with
    | none => appendLastElement prevElement rest
    | some prev =>
      let newPrev := calcDiff el.recorded_time el.measured_value el.channel prev
      newPrev :: appendLastElement
        (fun c => if c = el.channel then some newPrev else prevElement c) rest

/-- Source `getDetails`: run the per-reading loop, then, when the final
`isAddableEntry` flag is false and `lastElement` is nonempty, append the
trailing flush records.  The `powermeterTimeZone` argument only feeds the
formatted time strings, which the embedding keeps as raw unix values. -/
def getDetails (measurements : List Measurement) (powermeterTimeZone : String)
    (details : String) (isAggregation : Bool) : List RecElement :=
  let _ := powermeterTimeZone
  let isHourlyEnabled := details == "hourly"
  let isDaily := details == "daily"
  let isMonthly := details == "monthly"
  let s := getDetailsLoop measurements isHourlyEnabled isDaily isMonthly isAggregation
  if !s.isAddableEntry && decide (0 < s.lastElement.length) then
    s.result ++ appendLastElement s.prevElement s.lastElement
  else s.result

/-! ## Summary reducer (`getAvgSum`) -/

/-- `ResultAVG` entries of the summary reducer. -/
structure ResultAVG where
  channel : Nat
  sum : ℚ
  avg : ℚ
  count : Nat
deriving DecidableEq

/-- JS truthiness of `element.diff`: `undefined` and `0` are falsy, every
other number is truthy. -/
def diffTruthy : Option ℚ → Bool
  | none => false
  | some q => q != 0

/-- The in-place update `getAvgSum` performs on the entry of the matching
channel: add the diff to the sum and bump the count. -/
def avgUpd (ch : Nat) (d : ℚ) (v : ResultAVG) : ResultAVG :=
  if v.channel == ch then { v with sum := v.sum + d, count := v.count + 1 } else v

/-- One iteration of the `details.forEach` accumulation in `getAvgSum`:
a truthy diff either creates the channel's entry (sum = diff, count 1) or
adds onto it (`avgUpd` on the matching entry); records with falsy diff
(no diff, or diff 0) are skipped. -/
def avgStep (acc : List ResultAVG) (element : RecElement) : List ResultAVG :=
  match acc.find? (fun value => value.channel == element.channel) with
  | none =>
    if diffTruthy element.diff then
      acc ++ [{ channel := element.channel, sum := element.diff.getD 0, avg := 0, count := 1 }]
    else acc
  | some _ =>
    if diffTruthy element.diff then
      acc.map (avgUpd element.channel (element.diff.getD 0))
    else acc

/-- The final pass of `getAvgSum` over each accumulated entry: round the
sum to four decimals, then set the average to the rounded sum divided by
the count, rounded to four decimals. -/
def avgRound (e : ResultAVG) : ResultAVG :=
  let s := roundToFourDecimals e.sum
  { channel := e.channel, sum := s, avg := roundToFourDecimals (s / (e.count : ℚ)),
    count := e.count }

/-- Source `getAvgSum`: run `getDetails` in hourly mode with the
aggregation flag disabled, fold the records per channel, then apply the
rounding pass (`avgRound`) to every entry. -/
def getAvgSum (measurements : List Measurement) (powermeterTimeZone : String) :
    List ResultAVG :=
  let details := getDetails measurements powermeterTimeZone "hourly" false
  let result := details.foldl avgStep []
  result.map avgRound

/-! ## Sharded range reads (`getMeasurementsFromDBs`, `getYearlyMeasurementsFromDBs`)

Shards are abstracted as a map from month index (resp. year) to the stored
rows; `none` is a missing shard file.  The SQL
`select * from measurements where recorded_time between ? and ?
[and channel=? | and channel in (…)] order by recorded_time, channel`
is embedded as filter + stable insertion sort by (recorded_time, channel). -/

/-- The optional channel filter: nothing, a single channel, or a set. -/
abbrev ChannelFilter : Type := Option (Nat ⊕ List Nat)

/-- JS truthiness of the `channel` parameter: `undefined` and the number
`0` are falsy; every other number and every array is truthy.  The SQL
channel clause is appended only when this holds. -/
def channelTruthy : ChannelFilter → Bool
  | none => false
  | some (.inl c) => c != 0
  | some (.inr _) => true

/-- The row predicate of the appended channel clause: `channel=?` for a
single channel, `channel in (…)` for an array (an empty array yields
`channel in ()`, a SQLite syntax error that the caller catches, so the
shard contributes no rows — observably the same as an empty-set filter).
No clause is appended when the filter is falsy. -/
def sqlChannelCond (ch : ChannelFilter) (m : Measurement) : Bool :=
  if channelTruthy ch then
    match ch with
    | none => true
    | some (.inl c) => m.channel == c
    | some (.inr l) => l.contains m.channel
  else true

/-- `(recorded_time, channel)` sort key order used by the SQL `order by`. -/
def measLE (a b : Measurement) : Bool :=
  a.recorded_time < b.recorded_time
    || (a.recorded_time == b.recorded_time && a.channel ≤ b.channel)

/-- Stable insertion into a list sorted by `measLE`. -/
def measInsert (a : Measurement) : List Measurement → List Measurement
  | [] => [a]
  | b :: t => if measLE a b then a :: b :: t else b :: measInsert a t

/-- Stable sort by `(recorded_time, channel)`. -/
def measSort : List Measurement → List Measurement
  | [] => []
  | a :: t => measInsert a (measSort t)

/-- The windowed range query run against one shard's rows. -/
def queryShard (rows : List Measurement) (fromSec toSec : Nat) (ch : ChannelFilter) :
    List Measurement :=
  measSort (rows.filter (fun m =>
    decide (fromSec ≤ m.recorded_time) && decide (m.recorded_time ≤ toSec)
      && sqlChannelCond ch m))

/-- Source `getMeasurementsFromDBs`: starting from the calendar month
containing `fromSec`, the month iterator advances while its month start is
`≤ toSec`, i.e. over the month indices `monthIndex fromSec … monthIndex
toSec`; each existing shard contributes its windowed query results, missing
shards contribute nothing, and the per-month results are concatenated in
chronological order. -/
def getMeasurementsFromDBs (shards : Nat → Option (List Measurement))
    (fromSec toSec : Nat) (ch : ChannelFilter) : List Measurement :=
  let mFrom := monthIndex fromSec
  let mTo := monthIndex toSec
  (List.range (mTo + 1 - mFrom)).flatMap (fun i =>
    match shards (mFrom + i) with
    | none => []
    | some rows => queryShard rows fromSec toSec ch)

/-- Source `getYearlyMeasurementsFromDBs`: the same windowed query against
the single read-only yearly shard of the year containing `fromSec`; a
missing shard file yields no rows. -/
def getYearlyMeasurementsFromDBs (yearShards : Nat → Option (List Measurement))
    (fromSec toSec : Nat) (ch : ChannelFilter) : List Measurement :=
  match yearShards (yearOfUnix fromSec) with
  | none => []
  | some rows => queryShard rows fromSec toSec ch

/-! ## Measurement parser / ingestion (`processMeasurements`) -/

/-- ASCII digit test (`\d` of the line regex). -/
def isDigitChar (c : Char) : Bool := '0' ≤ c && c ≤ '9'

/-- Numeric value of an ASCII digit. -/
def digitVal (c : Char) : Nat := c.toNat - '0'.toNat

/-- Consume a maximal run of digits: accumulated value, number of digits
consumed, remaining input. -/
def takeDigits (acc n : Nat) : List Char → Nat × Nat × List Char
  | [] => (acc, n, [])
  | c :: t =>
    if isDigitChar c then takeDigits (acc * 10 + digitVal c) (n + 1) t
    else (acc, n, c :: t)

/-- JS `parseFloat` exponent suffix: `e` or `E`, an optional sign, and
digits.  The suffix only counts when at least one digit follows the
(optionally signed) `e`; otherwise JS stops before the `e` and the
exponent is 0 (`parseFloat("1e") = 1`, `parseFloat("1e-") = 1`). -/
def parseExponent (s : List Char) : ℤ :=
  match s with
  | c :: t =>
    if c == 'e' || c == 'E' then
      match t with
      | '+' :: t2 =>
        let (v, n, _) := takeDigits 0 0 t2
        if n = 0 then 0 else (v : ℤ)
      | '-' :: t2 =>
        let (v, n, _) := takeDigits 0 0 t2
        if n = 0 then 0 else -(v : ℤ)
      | _ =>
        let (v, n, _) := takeDigits 0 0 t
        if n = 0 then 0 else (v : ℤ)
    else 0
  | [] => 0

/-- JS `parseFloat` on the captured tail: skip leading blanks, optional
sign, digits with an optional fraction, optional exponent suffix
(`parseFloat("1e3") = 1000`, `parseFloat("1.5e-2") = 0.015`); `none`
models the `NaN` result when no digits are found.  (The literal
`Infinity`, which JS would also accept, has no ℚ value and is likewise
mapped to `none`; like `NaN` it interpolates into the `INSERT` as a bare
word the SQL parser rejects, so either way nothing is stored.) -/
def parseFloatQ (s : List Char) : Option ℚ :=
  let s1 := s.dropWhile (fun c => c == ' ' || c == '\t')
  let signAndRest : ℚ × List Char :=
    match s1 with
    | '-' :: t => (-1, t)
    | '+' :: t => (1, t)
    | _ => (1, s1)
  let (ip, ni, s3) := takeDigits 0 0 signAndRest.2
  match s3 with
  | '.' :: t =>
    let (fp, nf, rest) := takeDigits 0 0 t
    if ni = 0 && nf = 0 then none
    else some (signAndRest.1 * ((ip : ℚ) + (fp : ℚ) / ((10 : ℚ) ^ nf)) *
      (10 : ℚ) ^ parseExponent rest)
  | _ =>
    if ni = 0 then none
    else some (signAndRest.1 * (ip : ℚ) * (10 : ℚ) ^ parseExponent s3)

/-- The line regex `^channel_(\d{1,2}) : (.*)`: the literal `channel_`,
one or two digits (greedy, with backtracking from two digits to one when
`" : "` does not follow), the literal `" : "`, and the rest of the line as
second capture.  Returns the digit capture and the tail. -/
def matchChannelLine (line : List Char) : Option (List Char × List Char) :=
  if ("channel_".toList).isPrefixOf line then
    match line.drop 8 with
    | d1 :: d2 :: t =>
      if isDigitChar d1 && isDigitChar d2 && (" : ".toList).isPrefixOf t then
        some ([d1, d2], t.drop 3)
      else if isDigitChar d1 && (" : ".toList).isPrefixOf (d2 :: t) then
        some ([d1], (d2 :: t).drop 3)
      else none
    | _ => none
  else none

/-- JS `String.prototype.split('\n')`. -/
def splitLines : List Char → List (List Char)
  | [] => [[]]
  | c :: t =>
    if c = '\n' then [] :: splitLines t
    else
      match splitLines t with
      | [] => [[c]]
      | l :: ls => (c :: l) :: ls

/-- Numeric value of the captured digit string (the SQL interpolates the
capture as an integer literal, so `"05"` stores channel `5`). -/
def digitsToNat (ds : List Char) : Nat := ds.foldl (fun a c => a * 10 + digitVal c) 0

/-- A row inserted into the `Measurements` table (the autoincrement id is
assigned by the store). -/
structure InsertedRow where
  channel : Nat
  measured_value : ℚ
  recorded_time : Nat
deriving DecidableEq

/-- The per-line body of `processMeasurements`: a line whose regex match
succeeds and whose captured digit string is in the enabled-channel string
list inserts one row with value `parseFloat(tail) * 1000`; a line that
fails the regex or whose channel is disabled is silently skipped.  When
`parseFloat` finds no number the non-finite `NaN` interpolates into the
`INSERT` statement as a bare word, the SQL parser rejects the statement
and `db.exec` throws, so no row is stored either (the thrown error is not
modelled; the theorems' hypotheses exclude this case). -/
def lineToRow (t : Nat) (channels : List (List Char)) (line : List Char) :
    Option InsertedRow :=
  match matchChannelLine line with
  | some (ds, tail) =>
    if channels.contains ds then
      match parseFloatQ tail with
      | some q =>
        some { channel := digitsToNat ds
               measured_value := q * 1000
               recorded_time := t }
      | none => none
    else none
  | none => none

/-- Source `processMeasurements`: truncate the ingestion time to the top
of the hour, split the response on newlines, and insert one row per
matching enabled-channel line. -/
def processMeasurements (currentTime : Nat) (response : List Char)
    (channels : List (List Char)) : List InsertedRow :=
  let currentTimeRoundedToHour := hourTrunc currentTime
  (splitLines response).filterMap (lineToRow currentTimeRoundedToHour channels)

/-! ## Observation helpers used by the statements -/

/-- The measured values of channel `c` in input order. -/
def chanValues (c : Nat) (ms : List Measurement) : List ℚ :=
  ms.filterMap (fun m => if m.channel = c then some m.measured_value else none)

/-- The diff values carried by channel-`c` records, in output order. -/
def diffsOf (c : Nat) (rs : List RecElement) : List ℚ :=
  rs.filterMap (fun r => if r.channel = c then r.diff else none)

/-- Rounded consecutive differences of a value sequence. -/
def pairDiffs : List ℚ → List ℚ
  | a :: b :: t => roundToFourDecimals (b - a) :: pairDiffs (b :: t)
  | _ => []

/-! ## Theorems -/

/-- **C6 counterexample.** The claim says the 4-decimal rounding rounds
half away from zero *including for negative values*.  At `-0.00005` the
source's `roundToFourDecimals` (JS `Math.round`, half toward `+∞`)
returns `0`, while half-away-from-zero rounding returns `-0.0001`. -/
theorem c6_counterexample :
    roundToFourDecimals (-1/20000) = 0 ∧
    roundHalfAwayFromZero4 (-1/20000) = -1/10000 ∧
    roundToFourDecimals (-1/20000) ≠ roundHalfAwayFromZero4 (-1/20000) := by
  have h1 : roundToFourDecimals (-1/20000) = 0 := by
    norm_num [roundToFourDecimals, jsRound]
  have h2 : roundHalfAwayFromZero4 (-1/20000) = -1/10000 := by
    unfold roundHalfAwayFromZero4
    rw [if_neg (by norm_num)]
    have h3 : (-1/20000 : ℚ) * 10000 - 1/2 = ((-1 : ℤ) : ℚ) := by norm_num
    rw [h3, Int.ceil_intCast]
    norm_num
  refine ⟨h1, h2, ?_⟩
  rw [h1, h2]
  norm_num

/-- **C6 (amended).** `roundToFourDecimals` rounds half up (toward `+∞`)
at the fourth decimal digit; on non-negative inputs this coincides with
rounding half away from zero. -/
theorem c6_round_half_up (value : ℚ) (h : 0 ≤ value) :
    roundToFourDecimals value = roundHalfAwayFromZero4 value := by
  unfold roundToFourDecimals roundHalfAwayFromZero4 jsRound
  rw [if_pos h]

/-- Witness for `c6_round_half_up` at the halfway point `0.00015`. -/
theorem c6_round_half_up_witness :
    (0:ℚ) ≤ 3/20000 ∧ roundToFourDecimals (3/20000) = roundHalfAwayFromZero4 (3/20000) :=
  ⟨by norm_num, c6_round_half_up (3/20000) (by norm_num)⟩

/-- Unfolding equation of `strIndexOf` on a nonempty haystack. -/
theorem strIndexOf_cons (c : Char) (t needle : List Char) :
    strIndexOf (c :: t) needle =
      if needle.isPrefixOf (c :: t) then 0
      else if strIndexOf t needle < 0 then -1 else strIndexOf t needle + 1 := rfl

/-- `strIndexOf` is non-negative iff the needle occurs somewhere in the
haystack. -/
theorem strIndexOf_nonneg_iff (haystack needle : List Char) :
    0 ≤ strIndexOf haystack needle ↔ ∃ i, needle.isPrefixOf (haystack.drop i) = true := by
  induction haystack with
  | nil =>
    constructor
    · intro h
      cases needle with
      | nil => exact ⟨0, rfl⟩
      | cons c t => norm_num [strIndexOf, List.isEmpty_cons] at h
    · intro ⟨i, hi⟩
      rw [List.drop_nil] at hi
      cases needle with
      | nil => norm_num [strIndexOf, List.isEmpty_nil]
      | cons c t => simp [List.isPrefixOf] at hi
  | cons c t ih =>
    rw [strIndexOf_cons]
    cases hpe : needle.isPrefixOf (c :: t) with
    | true =>
      rw [if_pos rfl]
      exact ⟨fun _ => ⟨0, hpe⟩, fun _ => le_refl 0⟩
    | false =>
      rw [if_neg (by decide)]
      constructor
      · intro h
        have hr : 0 ≤ strIndexOf t needle := by
          by_contra hr'
          push_neg at hr'
          rw [if_pos hr'] at h
          norm_num at h
        obtain ⟨i, hi⟩ := ih.mp hr
        exact ⟨i + 1, hi⟩
      · intro ⟨i, hi⟩
        have hr : 0 ≤ strIndexOf t needle := by
          apply ih.mpr
          cases i with
          | zero =>
            rw [List.drop_zero] at hi
            rw [hi] at hpe
            exact absurd hpe (by decide)
          | succ j => exact ⟨j, hi⟩
        rw [if_neg (by omega)]
        omega

/-- `strIndexOf` is positive iff the needle occurs in the haystack but not
at position 0. -/
theorem strIndexOf_pos_iff (haystack needle : List Char) :
    0 < strIndexOf haystack needle ↔
      (needle.isPrefixOf haystack = false ∧
        ∃ i, needle.isPrefixOf (haystack.drop i) = true) := by
  cases haystack with
  | nil =>
    constructor
    · intro h
      exfalso
      cases needle with
      | nil => norm_num [strIndexOf, List.isEmpty_nil] at h
      | cons c t => norm_num [strIndexOf, List.isEmpty_cons] at h
    · intro ⟨hnp, i, hi⟩
      exfalso
      rw [List.drop_nil] at hi
      rw [hi] at hnp
      exact absurd hnp (by decide)
  | cons c t =>
    rw [strIndexOf_cons]
    cases hpe : needle.isPrefixOf (c :: t) with
    | true =>
      rw [if_pos rfl]
      constructor
      · intro h
        norm_num at h
      · intro ⟨hnp, _⟩
        exact absurd hnp (by decide)
    | false =>
      rw [if_neg (by decide)]
      constructor
      · intro h
        have hr : 0 ≤ strIndexOf t needle := by
          by_contra hr'
          push_neg at hr'
          rw [if_pos hr'] at h
          norm_num at h
        obtain ⟨i, hi⟩ := (strIndexOf_nonneg_iff t needle).mp hr
        exact ⟨rfl, i + 1, hi⟩
      · intro ⟨_, i, hi⟩
        have hr : 0 ≤ strIndexOf t needle := by
          apply (strIndexOf_nonneg_iff t needle).mpr
          cases i with
          | zero =>
            rw [List.drop_zero] at hi
            rw [hi] at hpe
            exact absurd hpe (by decide)
          | succ j => exact ⟨j, hi⟩
        rw [if_neg (by omega)]
        omega

/-- **C1 counterexample.** A buffer that begins with the sentinel line
(`"channel_13 : 5.0"`, so the line for channel 13 occurs at the very start
of the accumulated buffer) does **not** end the session:
`indexOf("channel_13")` is `0` and the source tests `> 0`. -/
theorem c1_counterexample :
    sentinel.isPrefixOf ("channel_13 : 5.0".toList) = true ∧
    responseTerminates ("channel_13 : 5.0".toList) = false := by
  constructor <;> decide

/-- **C1 (amended).** The protocol client ends the session exactly when
the accumulated buffer contains the sentinel `"channel_13"` somewhere
*other than at the very beginning*: an occurrence starting at index 0
does not terminate the session. -/
theorem c1_terminates_iff (response : List Char) :
    responseTerminates response = true ↔
      (sentinel.isPrefixOf response = false ∧
        ∃ i, sentinel.isPrefixOf (response.drop i) = true) := by
  have h : responseTerminates response = true ↔ 0 < strIndexOf response sentinel := by
    unfold responseTerminates
    exact decide_eq_true_iff
  rw [h]
  exact strIndexOf_pos_iff response sentinel

/-- **C10 (confirmed).** A single-channel filter of `0` is falsy in JS, so
both the monthly and the yearly range read append no channel clause: the
result is identical to passing no channel filter at all. -/
theorem c10_zero_filter_ignored (shards yearShards : Nat → Option (List Measurement))
    (fromSec toSec : Nat) :
    getMeasurementsFromDBs shards fromSec toSec (some (.inl 0)) =
      getMeasurementsFromDBs shards fromSec toSec none ∧
    getYearlyMeasurementsFromDBs yearShards fromSec toSec (some (.inl 0)) =
      getYearlyMeasurementsFromDBs yearShards fromSec toSec none :=
  ⟨rfl, rfl⟩

/-- The Bool test of `checkMonthlyEnabled` as a proposition. -/
theorem checkMonthly_eq_decide (element : Measurement) (prev : RecElement) :
    checkMonthlyEnabled element prev = true ↔
      (9:ℚ)/10 ≤ (monthIndex element.recorded_time : ℚ) - (monthIndex prev.recorded_time : ℚ) := by
  simp only [checkMonthlyEnabled]
  exact decide_eq_true_iff

/-- The 0.9-month threshold between whole month indices is exactly a
strict month-index increase. -/
theorem checkMonthly_iff_lt (element : Measurement) (prev : RecElement) :
    checkMonthlyEnabled element prev = true ↔
      monthIndex prev.recorded_time < monthIndex element.recorded_time := by
  rw [checkMonthly_eq_decide]
  constructor
  · intro h
    by_contra hab
    push_neg at hab
    have hc : (monthIndex element.recorded_time : ℚ) ≤ (monthIndex prev.recorded_time : ℚ) := by
      exact_mod_cast hab
    linarith
  · intro h
    have hc : (monthIndex prev.recorded_time : ℚ) + 1 ≤ (monthIndex element.recorded_time : ℚ) := by
      exact_mod_cast h
    linarith

/-- **C8 (confirmed).** In monthly mode a reading is eligible exactly when
the calendar-month start of the reading differs from the baseline's month
start by at least 0.9 months; since the whole-month difference between two
exact month starts is the integer month-index difference, this is the same
as the reading lying in a strictly later calendar month.  The two closed
conjuncts check an actual boundary: 2024-01-31 23:00 → 2024-02-01 01:00 is
eligible, 2024-01-01 00:00 → 2024-01-31 23:00 is not. -/
theorem c8_monthly_eligibility (element : Measurement) (prev : RecElement) :
    (checkMonthlyEnabled element prev = true ↔
      (9:ℚ)/10 ≤ (monthIndex element.recorded_time : ℚ) - (monthIndex prev.recorded_time : ℚ)) ∧
    (checkMonthlyEnabled element prev = true ↔
      monthIndex prev.recorded_time < monthIndex element.recorded_time) ∧
    checkMonthlyEnabled ⟨2, 1706749200, 150, 1⟩ ⟨1706742000, 100, 1, none, none, none⟩ = true ∧
    checkMonthlyEnabled ⟨2, 1706742000, 150, 1⟩ ⟨1704067200, 100, 1, none, none, none⟩ = false := by
  refine ⟨checkMonthly_eq_decide element prev, checkMonthly_iff_lt element prev, ?_, ?_⟩
  · exact (checkMonthly_iff_lt _ _).mpr (by decide)
  · cases hb : checkMonthlyEnabled ⟨2, 1706742000, 150, 1⟩ ⟨1704067200, 100, 1, none, none, none⟩ with
    | false => rfl
    | true => exact absurd ((checkMonthly_iff_lt _ _).mp hb) (by decide)

/-- Two readings 23 hours apart crossing one midnight
(day 100 13:00 → day 101 12:00, unix seconds). -/
def c4Pair23h : List Measurement := [⟨1, 8686800, 100, 1⟩, ⟨2, 8769600, 130, 1⟩]

/-- Two readings 47 hours apart crossing one further midnight only at the
start (day 100 13:00 → day 102 12:00). -/
def c4Pair47h : List Measurement := [⟨1, 8686800, 100, 1⟩, ⟨2, 8856000, 130, 1⟩]

/-- **C4 (confirmed).** In daily mode, a chronologically later reading is
eligible exactly when its naive calendar-day start is at least one day
after the baseline's day start; the 23-hour pair crossing one midnight and
the 47-hour pair each produce exactly one derived record. -/
theorem c4_daily_eligibility (element : Measurement) (prev : RecElement)
    (h : prev.recorded_time ≤ element.recorded_time) :
    (checkDaylyEnabled element prev = true ↔
      dayStart prev.recorded_time + 86400 ≤ dayStart element.recorded_time) ∧
    (getDetails c4Pair23h "UTC" "daily" false).length = 1 ∧
    (getDetails c4Pair47h "UTC" "daily" false).length = 1 := by
  refine ⟨?_, by decide, by decide⟩
  unfold checkDaylyEnabled dayStart
  rw [decide_eq_true_iff]
  omega

/-- Witness for `c4_daily_eligibility`: a baseline at day-100 13:00 and a
reading at day-101 10:00. -/
theorem c4_daily_eligibility_witness :
    (36000 : Nat) ≤ 122400 ∧
    ((checkDaylyEnabled ⟨2, 122400, 150, 1⟩ ⟨36000, 100, 1, none, none, none⟩ = true ↔
        dayStart 36000 + 86400 ≤ dayStart 122400) ∧
      (getDetails c4Pair23h "UTC" "daily" false).length = 1 ∧
      (getDetails c4Pair47h "UTC" "daily" false).length = 1) :=
  ⟨by decide, c4_daily_eligibility ⟨2, 122400, 150, 1⟩ ⟨36000, 100, 1, none, none, none⟩ (by decide)⟩

/-! ### C2: hourly mode emits per-channel consecutive rounded diffs -/

/-- `alSet` never produces an empty list. -/
theorem alSet_ne_nil (l : List (Nat × RecElement)) (k : Nat) (v : RecElement) :
    alSet l k v ≠ [] := by
  cases l with
  | nil => simp [alSet]
  | cons p t =>
    unfold alSet
    by_cases h1 : k < p.1
    · simp [h1]
    · by_cases h2 : k = p.1 <;> simp [h1, h2]

/-- Invariant tying an hourly-mode loop state to the per-channel value
histories `g`: the baseline holds the channel's last value, the emitted
channel diffs are the rounded consecutive differences, and the
`isAddableEntry` flag tracks nonemptiness of `lastElement`. -/
def HourlyInv (s : DetailsState) (g : Nat → List ℚ) : Prop :=
  (∀ c, (s.prevElement c).map RecElement.measured_value = (g c).getLast?) ∧
  (∀ c, diffsOf c s.result = pairDiffs (g c)) ∧
  (s.isAddableEntry = true ↔ s.lastElement ≠ [])

/-- `HourlyInv` only looks at `g` pointwise. -/
theorem HourlyInv_congr (s : DetailsState) (g g' : Nat → List ℚ)
    (h : ∀ c, g c = g' c) (hi : HourlyInv s g) : HourlyInv s g' := by
  refine ⟨fun c => ?_, fun c => ?_, hi.2.2⟩
  · rw [← h c]; exact hi.1 c
  · rw [← h c]; exact hi.2.1 c

/-- Appending a value extends the rounded consecutive differences by the
rounded difference against the previous last value. -/
theorem pairDiffs_append_last (l : List ℚ) (a x : ℚ) (h : l.getLast? = some a) :
    pairDiffs (l ++ [x]) = pairDiffs l ++ [roundToFourDecimals (x - a)] := by
  induction l with
  | nil => simp at h
  | cons b t ih =>
    cases t with
    | nil =>
      simp only [List.getLast?_singleton, Option.some.injEq] at h
      subst h
      simp [pairDiffs]
    | cons c t' =>
      rw [List.getLast?_cons_cons] at h
      have ih' := ih h
      show roundToFourDecimals (c - b) :: pairDiffs ((c :: t') ++ [x])
          = roundToFourDecimals (c - b) :: (pairDiffs (c :: t') ++ [roundToFourDecimals (x - a)])
      rw [ih']

/-- `diffsOf` over an appended channel-`c` record with a diff. -/
theorem diffsOf_append_same (c : Nat) (rs : List RecElement) (r : RecElement)
    (hc : r.channel = c) (d : ℚ) (hd : r.diff = some d) :
    diffsOf c (rs ++ [r]) = diffsOf c rs ++ [d] := by
  unfold diffsOf
  rw [List.filterMap_append]
  simp [hc, hd]

/-- `diffsOf` ignores an appended record of another channel. -/
theorem diffsOf_append_other (c : Nat) (rs : List RecElement) (r : RecElement)
    (hc : r.channel ≠ c) :
    diffsOf c (rs ++ [r]) = diffsOf c rs := by
  unfold diffsOf
  rw [List.filterMap_append]
  simp [hc]

/-- `detailsStep` when the element's channel has no baseline yet. -/
theorem detailsStep_none (isH isD isM isAgg : Bool) (s : DetailsState) (e : Measurement)
    (hpe : s.prevElement e.channel = none) :
    detailsStep isH isD isM isAgg s e =
      { s with
        prevElement := fun c => if c = e.channel then some (initPrevElement e) else s.prevElement c
        prevRecTime := e.recorded_time
        result := s.result ++ if isAgg then [initPrevElement e] else [] } := by
  unfold detailsStep
  rw [hpe]

/-- `detailsStep` in hourly mode when the element's channel has a
baseline: the record is always emitted and the baseline reset. -/
theorem detailsStep_hourly_some (isAgg : Bool) (s : DetailsState) (e : Measurement)
    (prev : RecElement) (hpe : s.prevElement e.channel = some prev) :
    detailsStep true false false isAgg s e =
      { result := s.result ++ [calcDiff e.recorded_time e.measured_value e.channel prev]
        prevElement := fun c =>
          if c = e.channel then some (calcDiff e.recorded_time e.measured_value e.channel prev)
          else s.prevElement c
        lastElement := alSet s.lastElement e.channel
          { recorded_time := e.recorded_time, measured_value := e.measured_value,
            channel := e.channel, diff := none, from_time := none, to_time := none }
        isAddableEntry := true
        isDailyEnabled := if s.prevRecTime ≠ e.recorded_time then false else s.isDailyEnabled
        isMonthlyEnabled := if s.prevRecTime ≠ e.recorded_time then false else s.isMonthlyEnabled
        prevRecTime := e.recorded_time } := by
  unfold detailsStep
  rw [hpe]
  rfl

/-- One hourly-mode step preserves the invariant, extending the processed
history of the element's channel by its value. -/
theorem hourlyStep_inv (s : DetailsState) (g : Nat → List ℚ) (e : Measurement)
    (h : HourlyInv s g) :
    HourlyInv (detailsStep true false false false s e)
      (fun c => if c = e.channel then g c ++ [e.measured_value] else g c) := by
  obtain ⟨hprev, hdiffs, hflag⟩ := h
  cases hpe : s.prevElement e.channel with
  | none =>
    rw [detailsStep_none true false false false s e hpe]
    have hg : g e.channel = [] := by
      have hx := hprev e.channel
      rw [hpe] at hx
      exact List.getLast?_eq_none_iff.mp hx.symm
    refine ⟨fun c => ?_, fun c => ?_, ?_⟩
    · dsimp only
      by_cases hc : c = e.channel
      · subst hc
        rw [if_pos rfl, if_pos rfl]
        simp [initPrevElement, hg]
      · rw [if_neg hc, if_neg hc]
        exact hprev c
    · dsimp only
      rw [show (if false = true then [initPrevElement e] else []) = ([] : List RecElement)
        from rfl]
      rw [List.append_nil]
      by_cases hc : c = e.channel
      · subst hc
        rw [if_pos rfl, hg, List.nil_append]
        have hx := hdiffs e.channel
        rw [hg] at hx
        rw [hx]
        rfl
      · rw [if_neg hc]
        exact hdiffs c
    · dsimp only
      exact hflag
  | some prev =>
    rw [detailsStep_hourly_some false s e prev hpe]
    have hlast : (g e.channel).getLast? = some prev.measured_value := by
      have hx := hprev e.channel
      rw [hpe] at hx
      exact hx.symm
    refine ⟨fun c => ?_, fun c => ?_, ?_⟩
    · dsimp only
      by_cases hc : c = e.channel
      · subst hc
        rw [if_pos rfl, if_pos rfl]
        simp [calcDiff, List.getLast?_concat]
      · rw [if_neg hc, if_neg hc]
        exact hprev c
    · dsimp only
      by_cases hc : c = e.channel
      · subst hc
        rw [if_pos rfl]
        rw [diffsOf_append_same e.channel s.result
          (calcDiff e.recorded_time e.measured_value e.channel prev) rfl
          (roundToFourDecimals (e.measured_value - prev.measured_value)) rfl]
        rw [pairDiffs_append_last _ _ _ hlast]
        rw [hdiffs e.channel]
      · rw [if_neg hc]
        rw [diffsOf_append_other c s.result
          (calcDiff e.recorded_time e.measured_value e.channel prev)
          (fun hx => hc (Eq.symm hx))]
        exact hdiffs c
    · dsimp only
      exact ⟨fun _ => alSet_ne_nil _ _ _, fun _ => rfl⟩

/-- Folding hourly-mode steps over any input extends the histories by the
per-channel values of that input. -/
theorem hourlyFold_inv (ms : List Measurement) (s : DetailsState) (g : Nat → List ℚ)
    (h : HourlyInv s g) :
    HourlyInv (ms.foldl (detailsStep true false false false) s)
      (fun c => g c ++ chanValues c ms) := by
  induction ms generalizing s g with
  | nil =>
    apply HourlyInv_congr s g _ _ h
    intro c
    simp [chanValues]
  | cons e t ih =>
    have h1 := hourlyStep_inv s g e h
    have h2 := ih _ _ h1
    apply HourlyInv_congr _ _ _ _ h2
    intro c
    by_cases hc : c = e.channel
    · subst hc
      simp [chanValues]
    · simp only [if_neg hc]
      have hne : e.channel ≠ c := fun hx => hc hx.symm
      simp [chanValues, hne]

/-- The hourly-mode loop state satisfies the invariant with the input's
per-channel value histories. -/
theorem hourlyLoop_inv (ms : List Measurement) :
    HourlyInv (getDetailsLoop ms true false false false) (fun c => chanValues c ms) := by
  have h0 : HourlyInv detailsInit (fun _ => []) := by
    refine ⟨fun c => ?_, fun c => ?_, ?_⟩
    · simp [detailsInit]
    · simp [detailsInit, diffsOf, pairDiffs]
    · simp [detailsInit]
  have h := hourlyFold_inv ms detailsInit (fun _ => []) h0
  apply HourlyInv_congr _ _ _ _ h
  intro c
  simp

/-- In hourly mode (aggregation flag off) the trailing flush never fires:
a nonempty `lastElement` forces the final `isAddableEntry` to be true, so
`getDetails` returns exactly the loop result. -/
theorem getDetails_hourly_eq_loop (ms : List Measurement) (tz : String) :
    getDetails ms tz "hourly" false =
      (getDetailsLoop ms true false false false).result := by
  obtain ⟨-, -, hflag⟩ := hourlyLoop_inv ms
  show (let s := getDetailsLoop ms true false false false
    if !s.isAddableEntry && decide (0 < s.lastElement.length) then
      s.result ++ appendLastElement s.prevElement s.lastElement
    else s.result) = (getDetailsLoop ms true false false false).result
  cases hA : (getDetailsLoop ms true false false false).isAddableEntry with
  | true => simp [hA]
  | false =>
    have hle : (getDetailsLoop ms true false false false).lastElement = [] := by
      by_contra hne
      rw [hflag.mpr hne] at hA
      exact Bool.noConfusion hA
    simp [hA, hle]

/-- Rounding to four decimals is exact on integer multiples of `1/10000`. -/
theorem roundToFourDecimals_exact (z : ℤ) :
    roundToFourDecimals ((z : ℚ)/10000) = (z : ℚ)/10000 := by
  unfold roundToFourDecimals jsRound
  have h1 : (z : ℚ)/10000 * 10000 = (z : ℚ) := by
    field_simp
  rw [h1, Int.floor_int_add]
  norm_num

/-- Rounding to four decimals preserves non-negativity. -/
theorem roundToFourDecimals_nonneg (q : ℚ) (h : 0 ≤ q) : 0 ≤ roundToFourDecimals q := by
  unfold roundToFourDecimals jsRound
  have h2 : (0:ℤ) ≤ ⌊q * 10000 + 1/2⌋ := by
    apply Int.le_floor.mpr
    push_cast
    nlinarith
  have h3 : (0:ℚ) ≤ (⌊q * 10000 + 1/2⌋ : ℚ) := by exact_mod_cast h2
  exact div_nonneg h3 (by norm_num)

/-- Consecutive rounded diffs of a non-decreasing sequence are `≥ 0`. -/
theorem pairDiffs_nonneg (l : List ℚ) (hc : List.Chain' (· ≤ ·) l) :
    ∀ d ∈ pairDiffs l, 0 ≤ d := by
  induction l with
  | nil =>
    intro d hd
    simp [pairDiffs] at hd
  | cons a t ih =>
    cases t with
    | nil =>
      intro d hd
      simp [pairDiffs] at hd
    | cons b t' =>
      rw [List.chain'_cons] at hc
      intro d hd
      rw [show pairDiffs (a :: b :: t') =
        roundToFourDecimals (b - a) :: pairDiffs (b :: t') from rfl] at hd
      rcases List.mem_cons.mp hd with h1 | h2
      · subst h1
        exact roundToFourDecimals_nonneg _ (by linarith [hc.1])
      · exact ih hc.2 d h2

/-- When every value is a multiple of `1/10000`, each rounded diff is
exact, so the consecutive diffs telescope to last − first. -/
theorem pairDiffs_sum_telescope (l : List ℚ)
    (hm : ∀ v ∈ l, ∃ z : ℤ, v = (z : ℚ)/10000) :
    (pairDiffs l).sum = (l.getLast?).getD 0 - (l.head?).getD 0 := by
  induction l with
  | nil => simp [pairDiffs]
  | cons a t ih =>
    cases t with
    | nil => simp [pairDiffs]
    | cons b t' =>
      have hab : roundToFourDecimals (b - a) = b - a := by
        obtain ⟨za, hza⟩ := hm a (by simp)
        obtain ⟨zb, hzb⟩ := hm b (by simp)
        rw [hza, hzb]
        have hd : (zb : ℚ)/10000 - (za : ℚ)/10000 = ((zb - za : ℤ) : ℚ)/10000 := by
          push_cast
          ring
        rw [hd, roundToFourDecimals_exact]
      have ih' := ih (fun v hv => hm v (List.mem_cons_of_mem a hv))
      rw [show pairDiffs (a :: b :: t') =
        roundToFourDecimals (b - a) :: pairDiffs (b :: t') from rfl]
      rw [List.sum_cons, ih', hab, List.getLast?_cons_cons]
      simp only [List.head?_cons, Option.getD_some]
      ring

/-- A record in the output with a diff contributes that diff to its
channel's diff list. -/
theorem mem_diffsOf (rs : List RecElement) (r : RecElement) (d : ℚ)
    (hr : r ∈ rs) (hd : r.diff = some d) : d ∈ diffsOf r.channel rs := by
  unfold diffsOf
  apply List.mem_filterMap.mpr
  exact ⟨r, hr, by rw [if_pos rfl, hd]⟩

/-- Every channel value comes from some input measurement. -/
theorem mem_chanValues (c : Nat) (ms : List Measurement) (v : ℚ)
    (hv : v ∈ chanValues c ms) : ∃ m ∈ ms, m.measured_value = v := by
  unfold chanValues at hv
  obtain ⟨m, hm, he⟩ := List.mem_filterMap.mp hv
  by_cases hc : m.channel = c
  · rw [if_pos hc] at he
    exact ⟨m, hm, by injection he⟩
  · rw [if_neg hc] at he
    exact absurd he (by simp)

/-- **C2 (amended).** For an input whose measured values are integer
multiples of `1/10000` (so the 4-decimal rounding of each diff is exact)
and whose per-channel value sequences are non-decreasing, hourly-mode
aggregation emits only diffs `≥ 0`, and for each channel the emitted
diffs sum to that channel's last value minus its first value. -/
theorem c2_hourly_diffs (ms : List Measurement) (tz : String)
    (hmult : ∀ m ∈ ms, ∃ z : ℤ, m.measured_value = (z : ℚ)/10000)
    (hmono : ∀ c, List.Chain' (· ≤ ·) (chanValues c ms)) :
    (∀ r ∈ getDetails ms tz "hourly" false, ∀ d, r.diff = some d → 0 ≤ d) ∧
    (∀ c, (diffsOf c (getDetails ms tz "hourly" false)).sum =
      ((chanValues c ms).getLast?).getD 0 - ((chanValues c ms).head?).getD 0) := by
  obtain ⟨-, hdiffs, -⟩ := hourlyLoop_inv ms
  constructor
  · intro r hr d hd
    rw [getDetails_hourly_eq_loop] at hr
    have hmem := mem_diffsOf _ r d hr hd
    rw [hdiffs r.channel] at hmem
    exact pairDiffs_nonneg _ (hmono r.channel) d hmem
  · intro c
    rw [getDetails_hourly_eq_loop, hdiffs c]
    apply pairDiffs_sum_telescope
    intro v hv
    obtain ⟨m, hm, hmv⟩ := mem_chanValues c ms v hv
    obtain ⟨z, hz⟩ := hmult m hm
    exact ⟨z, by rw [← hmv, hz]⟩

/-- One channel with values 10, 11, 13 (hourly diffs 1 and 2). -/
def c2WitnessInput : List Measurement := [⟨1, 10, 10, 1⟩, ⟨2, 20, 11, 1⟩, ⟨3, 30, 13, 1⟩]

/-- Witness for `c2_hourly_diffs` at a concrete monotone input whose
values are multiples of `1/10000`. -/
theorem c2_hourly_diffs_witness :
    (∀ m ∈ c2WitnessInput, ∃ z : ℤ, m.measured_value = (z : ℚ)/10000) ∧
    (∀ c, List.Chain' (· ≤ ·) (chanValues c c2WitnessInput)) ∧
    ((∀ r ∈ getDetails c2WitnessInput "UTC" "hourly" false, ∀ d, r.diff = some d → 0 ≤ d) ∧
     (∀ c, (diffsOf c (getDetails c2WitnessInput "UTC" "hourly" false)).sum =
       ((chanValues c c2WitnessInput).getLast?).getD 0 -
         ((chanValues c c2WitnessInput).head?).getD 0)) := by
  have h1 : ∀ m ∈ c2WitnessInput, ∃ z : ℤ, m.measured_value = (z : ℚ)/10000 := by
    intro m hm
    simp only [c2WitnessInput, List.mem_cons, List.not_mem_nil, or_false] at hm
    rcases hm with rfl | rfl | rfl
    · exact ⟨100000, by norm_num⟩
    · exact ⟨110000, by norm_num⟩
    · exact ⟨130000, by norm_num⟩
  have h2 : ∀ c, List.Chain' (· ≤ ·) (chanValues c c2WitnessInput) := by
    intro c
    by_cases hc : c = 1
    · subst hc
      have he : chanValues 1 c2WitnessInput = [10, 11, 13] := by
        simp [chanValues, c2WitnessInput]
      rw [he]
      rw [List.chain'_cons, List.chain'_cons]
      norm_num
    · have he : chanValues c c2WitnessInput = [] := by
        simp [chanValues, c2WitnessInput, show ¬((1:Nat) = c) from fun h => hc h.symm]
      rw [he]
      exact List.chain'_nil
  exact ⟨h1, h2, c2_hourly_diffs c2WitnessInput "UTC" h1 h2⟩

/-- One channel with values 0, 0.00007, 0.00014: each rounded hourly diff
is 0.0001, so the sum 0.0002 overshoots last − first = 0.00014. -/
def c2CexInput : List Measurement := [⟨1, 10, 0, 1⟩, ⟨2, 20, 7/100000, 1⟩, ⟨3, 30, 14/100000, 1⟩]

/-- **C2 counterexample.** The claim as stated (for every non-decreasing
per-channel input, the hourly diffs sum to last − first) is false: the
source rounds each diff to four decimals, and at values 0, 0.00007,
0.00014 the rounded diffs 0.0001 + 0.0001 ≠ 0.00014. -/
theorem c2_counterexample :
    ¬ (∀ (ms : List Measurement) (tz : String),
        (∀ c, List.Chain' (· ≤ ·) (chanValues c ms)) →
        ∀ c, (diffsOf c (getDetails ms tz "hourly" false)).sum =
          ((chanValues c ms).getLast?).getD 0 - ((chanValues c ms).head?).getD 0) := by
  intro hclaim
  have hmono : ∀ c, List.Chain' (· ≤ ·) (chanValues c c2CexInput) := by
    intro c
    by_cases hc : c = 1
    · subst hc
      have he : chanValues 1 c2CexInput = [0, 7/100000, 14/100000] := by
        simp [chanValues, c2CexInput]
      rw [he]
      rw [List.chain'_cons, List.chain'_cons]
      norm_num
    · have he : chanValues c c2CexInput = [] := by
        simp [chanValues, c2CexInput, show ¬((1:Nat) = c) from fun h => hc h.symm]
      rw [he]
      exact List.chain'_nil
  have h := hclaim c2CexInput "UTC" hmono 1
  obtain ⟨-, hdiffs, -⟩ := hourlyLoop_inv c2CexInput
  rw [getDetails_hourly_eq_loop, hdiffs 1] at h
  dsimp only at h
  have hchan : chanValues 1 c2CexInput = [0, 7/100000, 14/100000] := by
    simp [chanValues, c2CexInput]
  rw [hchan] at h
  rw [show pairDiffs [0, 7/100000, 14/100000] =
      [roundToFourDecimals (7/100000 - 0), roundToFourDecimals (14/100000 - 7/100000)]
    from rfl] at h
  have hval1 : roundToFourDecimals ((7:ℚ)/100000 - 0) = 1/10000 := by
    norm_num [roundToFourDecimals, jsRound]
  have hval2 : roundToFourDecimals ((14:ℚ)/100000 - 7/100000) = 1/10000 := by
    norm_num [roundToFourDecimals, jsRound]
  rw [hval1, hval2] at h
  norm_num at h

/-! ### C3: the trailing flush -/

/-- Number of observations of channel `c` in the input. -/
def chanCount (c : Nat) (ms : List Measurement) : Nat :=
  (ms.filter (fun m => m.channel == c)).length

/-- `detailsStep` when the element's channel has a baseline (general
granularity flags). -/
theorem detailsStep_some (isH isD isM isAgg : Bool) (s : DetailsState) (e : Measurement)
    (prev : RecElement) (hpe : s.prevElement e.channel = some prev) :
    detailsStep isH isD isM isAgg s e =
      (let dEn := if s.prevRecTime ≠ e.recorded_time then isD && checkDaylyEnabled e prev
        else s.isDailyEnabled
       let mEn := if s.prevRecTime ≠ e.recorded_time then isM && checkMonthlyEnabled e prev
        else s.isMonthlyEnabled
       let addable := isH || dEn || mEn
       let newPrev := calcDiff e.recorded_time e.measured_value e.channel prev
       { result := if addable then s.result ++ [newPrev] else s.result
         prevElement := if addable then
            (fun c => if c = e.channel then some newPrev else s.prevElement c)
          else s.prevElement
         lastElement := alSet s.lastElement e.channel
           { recorded_time := e.recorded_time, measured_value := e.measured_value,
             channel := e.channel, diff := none, from_time := none, to_time := none }
         isAddableEntry := addable
         isDailyEnabled := dEn
         isMonthlyEnabled := mEn
         prevRecTime := e.recorded_time }) := by
  unfold detailsStep
  rw [hpe]

/-- If the eligibility flag is set, some emitted record carries interval
boundaries, i.e. a bucket was closed. -/
def FlagWitness (s : DetailsState) : Prop :=
  s.isAddableEntry = true → ∃ r ∈ s.result, r.from_time ≠ none

/-- Every step preserves `FlagWitness`: the flag becomes true only when a
`calcDiff` record (with boundaries) is appended. -/
theorem detailsStep_flagWitness (isH isD isM isAgg : Bool) (s : DetailsState)
    (e : Measurement) (h : FlagWitness s) :
    FlagWitness (detailsStep isH isD isM isAgg s e) := by
  cases hpe : s.prevElement e.channel with
  | none =>
    rw [detailsStep_none isH isD isM isAgg s e hpe]
    intro hf
    dsimp only at hf ⊢
    obtain ⟨r, hr, hrf⟩ := h hf
    exact ⟨r, List.mem_append_left _ hr, hrf⟩
  | some prev =>
    rw [detailsStep_some isH isD isM isAgg s e prev hpe]
    intro hf
    dsimp only at hf ⊢
    rw [if_pos hf]
    refine ⟨calcDiff e.recorded_time e.measured_value e.channel prev,
      List.mem_append_right _ (by simp), ?_⟩
    simp [calcDiff]

/-- `FlagWitness` propagates through the whole loop. -/
theorem foldl_flagWitness (ms : List Measurement) (isH isD isM isAgg : Bool)
    (s : DetailsState) (h : FlagWitness s) :
    FlagWitness (ms.foldl (detailsStep isH isD isM isAgg) s) := by
  induction ms generalizing s with
  | nil => exact h
  | cons e t ih => exact ih _ (detailsStep_flagWitness _ _ _ _ _ _ h)

/-- When no emitted record of the main loop has boundaries (no bucket was
closed at any point), the final eligibility flag is false. -/
theorem noClosure_flag (ms : List Measurement) (isH isD isM isAgg : Bool)
    (h : ∀ r ∈ (getDetailsLoop ms isH isD isM isAgg).result, r.from_time = none) :
    (getDetailsLoop ms isH isD isM isAgg).isAddableEntry = false := by
  have hw : FlagWitness (getDetailsLoop ms isH isD isM isAgg) := by
    unfold getDetailsLoop
    apply foldl_flagWitness
    intro hf
    exact absurd hf (by simp [detailsInit])
  cases hA : (getDetailsLoop ms isH isD isM isAgg).isAddableEntry with
  | false => rfl
  | true =>
    obtain ⟨r, hr, hrf⟩ := hw hA
    exact absurd (h r hr) hrf

/-- The new entry is a member of `alSet l k v`. -/
theorem mem_alSet_self (l : List (Nat × RecElement)) (k : Nat) (v : RecElement) :
    (k, v) ∈ alSet l k v := by
  induction l with
  | nil => simp [alSet]
  | cons p t ih =>
    unfold alSet
    by_cases h1 : k < p.1
    · simp [h1]
    · by_cases h2 : k = p.1 <;> simp [h1, h2, ih]

/-- Members of `alSet l k v` are the new entry or old entries. -/
theorem mem_alSet_elim (l : List (Nat × RecElement)) (k : Nat) (v : RecElement)
    (p : Nat × RecElement) (hp : p ∈ alSet l k v) : p = (k, v) ∨ p ∈ l := by
  induction l with
  | nil =>
    simp [alSet] at hp
    exact Or.inl hp
  | cons q t ih =>
    unfold alSet at hp
    by_cases h1 : k < q.1
    · rw [if_pos h1] at hp
      rcases List.mem_cons.mp hp with h | h
      · exact Or.inl h
      · exact Or.inr h
    · rw [if_neg h1] at hp
      by_cases h2 : k = q.1
      · rw [if_pos h2] at hp
        rcases List.mem_cons.mp hp with h | h
        · exact Or.inl h
        · exact Or.inr (List.mem_cons_of_mem _ h)
      · rw [if_neg h2] at hp
        rcases List.mem_cons.mp hp with h | h
        · exact Or.inr (h ▸ List.mem_cons_self _ _)
        · rcases ih h with h' | h'
          · exact Or.inl h'
          · exact Or.inr (List.mem_cons_of_mem _ h')

/-- Entries with another key survive `alSet`. -/
theorem mem_alSet_of_mem (l : List (Nat × RecElement)) (k : Nat) (v : RecElement)
    (p : Nat × RecElement) (hk : p.1 ≠ k) (hp : p ∈ l) : p ∈ alSet l k v := by
  induction l with
  | nil => simp at hp
  | cons q t ih =>
    unfold alSet
    by_cases h1 : k < q.1
    · rw [if_pos h1]
      exact List.mem_cons_of_mem _ hp
    · rw [if_neg h1]
      by_cases h2 : k = q.1
      · rw [if_pos h2]
        rcases List.mem_cons.mp hp with h | h
        · exact absurd (h ▸ h2.symm) hk
        · exact List.mem_cons_of_mem _ h
      · rw [if_neg h2]
        rcases List.mem_cons.mp hp with h | h
        · exact h ▸ List.mem_cons_self _ _
        · exact List.mem_cons_of_mem _ (ih h)

/-- Occurrence invariant of the loop state: a channel has a baseline iff
it occurred, has a `lastElement` entry iff it occurred at least twice, and
every `lastElement` entry is stored under its own channel. -/
def OccInv (s : DetailsState) (g : Nat → Nat) : Prop :=
  (∀ c, (s.prevElement c).isSome = true ↔ 0 < g c) ∧
  (∀ c, (∃ v, (c, v) ∈ s.lastElement) ↔ 2 ≤ g c) ∧
  (∀ p ∈ s.lastElement, (p.2).channel = p.1)

/-- `OccInv` only looks at `g` pointwise. -/
theorem OccInv_congr (s : DetailsState) (g g' : Nat → Nat)
    (h : ∀ c, g c = g' c) (hi : OccInv s g) : OccInv s g' := by
  refine ⟨fun c => ?_, fun c => ?_, hi.2.2⟩
  · rw [← h c]; exact hi.1 c
  · rw [← h c]; exact hi.2.1 c

/-- Every step preserves the occurrence invariant, incrementing the
element's channel count. -/
theorem detailsStep_occInv (isH isD isM isAgg : Bool) (s : DetailsState) (g : Nat → Nat)
    (e : Measurement) (h : OccInv s g) :
    OccInv (detailsStep isH isD isM isAgg s e)
      (fun c => if c = e.channel then g c + 1 else g c) := by
  obtain ⟨h1, h2, h3⟩ := h
  cases hpe : s.prevElement e.channel with
  | none =>
    have hz : g e.channel = 0 := by
      have hx := h1 e.channel
      rw [hpe] at hx
      simp only [Option.isSome_none, Bool.false_eq_true, false_iff] at hx
      omega
    rw [detailsStep_none isH isD isM isAgg s e hpe]
    refine ⟨fun c => ?_, fun c => ?_, h3⟩
    · dsimp only
      by_cases hc : c = e.channel
      · subst hc
        simp
      · rw [if_neg hc, if_neg hc]
        exact h1 c
    · dsimp only
      by_cases hc : c = e.channel
      · subst hc
        rw [if_pos rfl]
        rw [h2 e.channel, hz]
        omega
      · rw [if_neg hc]
        exact h2 c
  | some prev =>
    have hpos : 0 < g e.channel := by
      rw [← h1 e.channel, hpe]
      rfl
    rw [detailsStep_some isH isD isM isAgg s e prev hpe]
    refine ⟨fun c => ?_, fun c => ?_, fun p hp => ?_⟩
    · dsimp only
      by_cases hc : c = e.channel
      · subst hc
        constructor
        · intro _
          rw [if_pos rfl]
          omega
        · intro _
          cases hA : (isH || (if s.prevRecTime ≠ e.recorded_time
              then isD && checkDaylyEnabled e prev else s.isDailyEnabled)
              || (if s.prevRecTime ≠ e.recorded_time
                then isM && checkMonthlyEnabled e prev else s.isMonthlyEnabled)) with
          | true => simp [hA]
          | false => simp [hA, hpe]
      · cases hA : (isH || (if s.prevRecTime ≠ e.recorded_time then isD && checkDaylyEnabled e prev
            else s.isDailyEnabled) || (if s.prevRecTime ≠ e.recorded_time
              then isM && checkMonthlyEnabled e prev else s.isMonthlyEnabled)) with
        | true => simp [hA, if_neg hc, h1 c]
        | false => simp [hA, if_neg hc, h1 c]
    · dsimp only
      by_cases hc : c = e.channel
      · subst hc
        constructor
        · intro _
          rw [if_pos rfl]
          omega
        · intro _
          exact ⟨_, mem_alSet_self _ _ _⟩
      · rw [if_neg hc]
        rw [← h2 c]
        constructor
        · intro ⟨v, hv⟩
          rcases mem_alSet_elim _ _ _ _ hv with h' | h'
          · exact absurd (congrArg Prod.fst h') hc
          · exact ⟨v, h'⟩
        · intro ⟨v, hv⟩
          exact ⟨v, mem_alSet_of_mem _ _ _ _ hc hv⟩
    · dsimp only at hp
      rcases mem_alSet_elim _ _ _ _ hp with h' | h'
      · rw [h']
      · exact h3 p h'

/-- The occurrence invariant propagates through the loop. -/
theorem foldl_occInv (ms : List Measurement) (isH isD isM isAgg : Bool)
    (s : DetailsState) (g : Nat → Nat) (h : OccInv s g) :
    OccInv (ms.foldl (detailsStep isH isD isM isAgg) s)
      (fun c => g c + chanCount c ms) := by
  induction ms generalizing s g with
  | nil =>
    apply OccInv_congr s g _ _ h
    intro c
    simp [chanCount]
  | cons e t ih =>
    have hstep := detailsStep_occInv isH isD isM isAgg s g e h
    have hrec := ih _ _ hstep
    apply OccInv_congr _ _ _ _ hrec
    intro c
    by_cases hc : c = e.channel
    · subst hc
      simp [chanCount, List.filter_cons]
      omega
    · have hne : ¬ (e.channel == c) = true := by
        simp
        exact fun h' => hc h'.symm
      simp [chanCount, List.filter_cons, hne, if_neg hc]

/-- The loop state satisfies the occurrence invariant with the input's
channel counts. -/
theorem loop_occInv (ms : List Measurement) (isH isD isM isAgg : Bool) :
    OccInv (getDetailsLoop ms isH isD isM isAgg) (fun c => chanCount c ms) := by
  have h0 : OccInv detailsInit (fun _ => 0) := by
    refine ⟨fun c => ?_, fun c => ?_, fun p hp => ?_⟩
    · simp [detailsInit]
    · simp [detailsInit]
    · simp [detailsInit] at hp
  have h := foldl_occInv ms isH isD isM isAgg detailsInit (fun _ => 0) h0
  apply OccInv_congr _ _ _ _ h
  intro c
  simp

/-- When every `lastElement` channel has a baseline, the flush emits one
diff-bearing record per entry. -/
theorem appendLastElement_length (prevEl : Nat → Option RecElement)
    (l : List (Nat × RecElement))
    (hdef : ∀ p ∈ l, (prevEl ((p.2).channel)).isSome = true) :
    (appendLastElement prevEl l).length = l.length ∧
    ∀ rec ∈ appendLastElement prevEl l, ∃ d, rec.diff = some d := by
  induction l generalizing prevEl with
  | nil => simp [appendLastElement]
  | cons p t ih =>
    obtain ⟨c, el⟩ := p
    have h1 := hdef (c, el) (List.mem_cons_self _ _)
    cases hpe : prevEl el.channel with
    | none =>
      rw [hpe] at h1
      simp at h1
    | some prev =>
      unfold appendLastElement
      rw [hpe]
      have hdef' : ∀ q ∈ t,
          ((if (q.2).channel = el.channel
            then some (calcDiff el.recorded_time el.measured_value el.channel prev)
            else prevEl ((q.2).channel))).isSome = true := by
        intro q hq
        by_cases hc : (q.2).channel = el.channel
        · rw [if_pos hc]
          rfl
        · rw [if_neg hc]
          exact hdef q (List.mem_cons_of_mem _ hq)
      have ih' := ih (fun c' => if c' = el.channel
        then some (calcDiff el.recorded_time el.measured_value el.channel prev)
        else prevEl c') hdef'
      constructor
      · simp [ih'.1]
      · intro rec hrec
        rcases List.mem_cons.mp hrec with h' | hmem
        · exact ⟨_, by rw [h']; rfl⟩
        · exact ih'.2 rec hmem

/-- Unfolding of `getDetails` in terms of the loop state. -/
theorem getDetails_unfold (ms : List Measurement) (tz details : String) (isAgg : Bool) :
    getDetails ms tz details isAgg =
      (if (!(getDetailsLoop ms (details == "hourly") (details == "daily")
            (details == "monthly") isAgg).isAddableEntry
          && decide (0 < (getDetailsLoop ms (details == "hourly") (details == "daily")
            (details == "monthly") isAgg).lastElement.length)) then
        (getDetailsLoop ms (details == "hourly") (details == "daily")
          (details == "monthly") isAgg).result ++
          appendLastElement
            (getDetailsLoop ms (details == "hourly") (details == "daily")
              (details == "monthly") isAgg).prevElement
            (getDetailsLoop ms (details == "hourly") (details == "daily")
              (details == "monthly") isAgg).lastElement
      else (getDetailsLoop ms (details == "hourly") (details == "daily")
        (details == "monthly") isAgg).result) := rfl

/-- **C3 (amended).** If no bucket was closed at any point of the whole
run (no record emitted by the main loop carries interval boundaries) and
at least one channel had more than one observation, then `getDetails`
appends the trailing flush: exactly one diff-bearing record per channel
with two or more observations.  (The converse direction of the original
claim fails, see the counterexample: a flush can also fire after a
mid-run closure, because only the last eligibility recomputation is
consulted.) -/
theorem c3_trailing_flush (ms : List Measurement) (tz details : String) (isAgg : Bool)
    (hrep : ∃ c, 2 ≤ chanCount c ms)
    (hnoclose : ∀ r ∈ (getDetailsLoop ms (details == "hourly") (details == "daily")
      (details == "monthly") isAgg).result, r.from_time = none) :
    getDetails ms tz details isAgg =
      (getDetailsLoop ms (details == "hourly") (details == "daily")
          (details == "monthly") isAgg).result ++
        appendLastElement
          (getDetailsLoop ms (details == "hourly") (details == "daily")
            (details == "monthly") isAgg).prevElement
          (getDetailsLoop ms (details == "hourly") (details == "daily")
            (details == "monthly") isAgg).lastElement ∧
    (appendLastElement
        (getDetailsLoop ms (details == "hourly") (details == "daily")
          (details == "monthly") isAgg).prevElement
        (getDetailsLoop ms (details == "hourly") (details == "daily")
          (details == "monthly") isAgg).lastElement).length =
      (getDetailsLoop ms (details == "hourly") (details == "daily")
        (details == "monthly") isAgg).lastElement.length ∧
    0 < (getDetailsLoop ms (details == "hourly") (details == "daily")
      (details == "monthly") isAgg).lastElement.length ∧
    (∀ rec ∈ appendLastElement
        (getDetailsLoop ms (details == "hourly") (details == "daily")
          (details == "monthly") isAgg).prevElement
        (getDetailsLoop ms (details == "hourly") (details == "daily")
          (details == "monthly") isAgg).lastElement, ∃ d, rec.diff = some d) := by
  obtain ⟨hprev, hlastIff, hchan⟩ := loop_occInv ms (details == "hourly")
    (details == "daily") (details == "monthly") isAgg
  have hflag : (getDetailsLoop ms (details == "hourly") (details == "daily")
      (details == "monthly") isAgg).isAddableEntry = false :=
    noClosure_flag ms _ _ _ _ hnoclose
  obtain ⟨c, hc⟩ := hrep
  have hpos : 0 < (getDetailsLoop ms (details == "hourly") (details == "daily")
      (details == "monthly") isAgg).lastElement.length := by
    obtain ⟨v, hv⟩ := (hlastIff c).mpr hc
    exact List.length_pos.mpr (List.ne_nil_of_mem hv)
  have hdef : ∀ p ∈ (getDetailsLoop ms (details == "hourly") (details == "daily")
      (details == "monthly") isAgg).lastElement,
      ((getDetailsLoop ms (details == "hourly") (details == "daily")
        (details == "monthly") isAgg).prevElement ((p.2).channel)).isSome = true := by
    intro p hp
    rw [hchan p hp]
    apply (hprev p.1).mpr
    have h2 := (hlastIff p.1).mp ⟨p.2, by rwa [Prod.mk.eta]⟩
    omega
  have happend := appendLastElement_length _ _ hdef
  refine ⟨?_, happend.1, hpos, happend.2⟩
  rw [getDetails_unfold, hflag, decide_eq_true hpos]
  rfl

/-- Two same-day readings of one channel: no daily bucket boundary, one
repeated channel. -/
def c3WitnessInput : List Measurement := [⟨1, 36000, 100, 1⟩, ⟨2, 39600, 120, 1⟩]

/-- Witness for `c3_trailing_flush`: a short daily-mode run with no
closed bucket and one channel observed twice. -/
theorem c3_trailing_flush_witness :
    ((2:Nat) ≤ chanCount 1 c3WitnessInput) ∧
    (∀ r ∈ (getDetailsLoop c3WitnessInput ("daily" == "hourly") ("daily" == "daily")
      ("daily" == "monthly") false).result, r.from_time = none) ∧
    (getDetails c3WitnessInput "UTC" "daily" false =
      (getDetailsLoop c3WitnessInput ("daily" == "hourly") ("daily" == "daily")
          ("daily" == "monthly") false).result ++
        appendLastElement
          (getDetailsLoop c3WitnessInput ("daily" == "hourly") ("daily" == "daily")
            ("daily" == "monthly") false).prevElement
          (getDetailsLoop c3WitnessInput ("daily" == "hourly") ("daily" == "daily")
            ("daily" == "monthly") false).lastElement ∧
      (appendLastElement
          (getDetailsLoop c3WitnessInput ("daily" == "hourly") ("daily" == "daily")
            ("daily" == "monthly") false).prevElement
          (getDetailsLoop c3WitnessInput ("daily" == "hourly") ("daily" == "daily")
            ("daily" == "monthly") false).lastElement).length =
        (getDetailsLoop c3WitnessInput ("daily" == "hourly") ("daily" == "daily")
          ("daily" == "monthly") false).lastElement.length ∧
      0 < (getDetailsLoop c3WitnessInput ("daily" == "hourly") ("daily" == "daily")
        ("daily" == "monthly") false).lastElement.length ∧
      (∀ rec ∈ appendLastElement
          (getDetailsLoop c3WitnessInput ("daily" == "hourly") ("daily" == "daily")
            ("daily" == "monthly") false).prevElement
          (getDetailsLoop c3WitnessInput ("daily" == "hourly") ("daily" == "daily")
            ("daily" == "monthly") false).lastElement, ∃ d, rec.diff = some d)) :=
  ⟨by decide, by decide,
    c3_trailing_flush c3WitnessInput "UTC" "daily" false ⟨1, by decide⟩ (by decide)⟩

/-- Daily-mode input where a bucket closes between day 0 and day 1 and a
third same-day reading then resets the eligibility flag. -/
def c3CexInput : List Measurement :=
  [⟨1, 36000, 100, 1⟩, ⟨2, 122400, 150, 1⟩, ⟨3, 126000, 160, 1⟩]

/-- **C3 counterexample.** The claim's "only if" direction fails: in this
daily run a bucket *was* closed (the loop emitted one record with
interval boundaries), yet the trailing flush still fires — `getDetails`
returns two records, not one — because the source consults only the last
recomputed eligibility flag, not whether any bucket was ever closed. -/
theorem c3_counterexample :
    (∃ r ∈ (getDetailsLoop c3CexInput false true false false).result,
      r.from_time ≠ none) ∧
    (getDetailsLoop c3CexInput false true false false).result.length = 1 ∧
    (getDetails c3CexInput "UTC" "daily" false).length = 2 := by
  refine ⟨by decide, by decide, by decide⟩

/-! ### C5: the summary reducer -/

/-- The diffs of channel `c` that are JS-truthy (present and nonzero):
exactly the records `getAvgSum` counts. -/
def nzDiffs (c : Nat) (rs : List RecElement) : List ℚ :=
  rs.filterMap (fun r =>
    if r.channel = c then (if diffTruthy r.diff then r.diff else none) else none)

/-- Head-splitting of `nzDiffs`. -/
theorem nzDiffs_cons (c : Nat) (r : RecElement) (t : List RecElement) :
    nzDiffs c (r :: t) =
      (if r.channel = c then (if diffTruthy r.diff then r.diff else none) else none).toList
        ++ nzDiffs c t := by
  unfold nzDiffs
  rw [List.filterMap_cons]
  cases (if r.channel = c then (if diffTruthy r.diff then r.diff else none) else none) with
  | none => rfl
  | some q => rfl

/-- Head-splitting of `diffsOf`. -/
theorem diffsOf_cons (c : Nat) (r : RecElement) (t : List RecElement) :
    diffsOf c (r :: t) =
      (if r.channel = c then r.diff else none).toList ++ diffsOf c t := by
  unfold diffsOf
  rw [List.filterMap_cons]
  cases (if r.channel = c then r.diff else none) with
  | none => rfl
  | some q => rfl

/-- Zero diffs contribute nothing to the sum: the truthy diffs of a
channel sum to the same value as all its diffs. -/
theorem nzDiffs_sum_eq (c : Nat) (rs : List RecElement) :
    (nzDiffs c rs).sum = (diffsOf c rs).sum := by
  induction rs with
  | nil => rfl
  | cons r t ih =>
    rw [nzDiffs_cons, diffsOf_cons, List.sum_append, List.sum_append, ih]
    congr 1
    by_cases h1 : r.channel = c
    · rw [if_pos h1, if_pos h1]
      cases hd : r.diff with
      | none => rfl
      | some q =>
        by_cases hq : q = 0
        · subst hq
          rw [show diffTruthy (some (0:ℚ)) = false from rfl]
          simp
        · rw [show diffTruthy (some q) = (q != 0) from rfl,
            show (q != 0) = true from by simpa using hq]
          rfl
    · rw [if_neg h1, if_neg h1]

/-- When no diff of channel `c` is zero, the truthy diffs are all diffs. -/
theorem nzDiffs_eq_diffsOf (c : Nat) (rs : List RecElement)
    (h : ∀ d ∈ diffsOf c rs, d ≠ 0) : nzDiffs c rs = diffsOf c rs := by
  induction rs with
  | nil => rfl
  | cons r t ih =>
    have hsub : ∀ d ∈ diffsOf c t, d ≠ 0 := by
      intro d hd
      apply h
      rw [diffsOf_cons]
      exact List.mem_append_right _ hd
    rw [nzDiffs_cons, diffsOf_cons, ih hsub]
    congr 1
    by_cases h1 : r.channel = c
    · rw [if_pos h1, if_pos h1]
      cases hd : r.diff with
      | none => rfl
      | some q =>
        have hq : q ≠ 0 := by
          apply h
          rw [diffsOf_cons, if_pos h1, hd]
          exact List.mem_append_left _ (by simp)
        rw [show diffTruthy (some q) = (q != 0) from rfl,
          show (q != 0) = true from by simpa using hq]
        rfl
    · rw [if_neg h1, if_neg h1]

/-- `find?` by channel commutes with mapping a channel-preserving
function. -/
theorem find?_map_channel (f : ResultAVG → ResultAVG)
    (hf : ∀ v, (f v).channel = v.channel) (l : List ResultAVG) (c : Nat) :
    (l.map f).find? (fun v => v.channel == c) =
      (l.find? (fun v => v.channel == c)).map f := by
  induction l with
  | nil => rfl
  | cons x t ih =>
    rw [List.map_cons]
    simp only [List.find?]
    rw [show ((f x).channel == c) = (x.channel == c) by rw [hf x]]
    cases hx : (x.channel == c) with
    | true => rfl
    | false => exact ih

/-- A record with a falsy diff leaves the accumulator unchanged. -/
theorem avgStep_falsy (acc : List ResultAVG) (r : RecElement)
    (h : diffTruthy r.diff = false) : avgStep acc r = acc := by
  unfold avgStep
  cases acc.find? (fun value => value.channel == r.channel) <;> simp [h]

/-- `avgUpd` preserves the channel. -/
theorem avgUpd_channel (ch : Nat) (d : ℚ) (v : ResultAVG) :
    (avgUpd ch d v).channel = v.channel := by
  unfold avgUpd
  by_cases hw : (v.channel == ch) = true
  · rw [if_pos hw]
  · rw [if_neg hw]

/-- A record of another channel does not affect `find?` for channel `c`. -/
theorem find?_avgStep_other (acc : List ResultAVG) (r : RecElement) (c : Nat)
    (hc : (r.channel == c) = false) :
    (avgStep acc r).find? (fun v => v.channel == c) =
      acc.find? (fun v => v.channel == c) := by
  have hcr : ¬ (c = r.channel) := by
    intro h
    rw [h] at hc
    simp at hc
  unfold avgStep
  cases hfr : acc.find? (fun value => value.channel == r.channel) with
  | none =>
    dsimp only
    by_cases ht : diffTruthy r.diff = true
    · rw [if_pos ht, List.find?_append]
      have hnew : (([ResultAVG.mk r.channel (r.diff.getD 0) 0 1]).find?
          (fun v => v.channel == c)) = none := by
        simp only [List.find?]
        rw [show ((ResultAVG.mk r.channel (r.diff.getD 0) 0 1).channel == c) = false from hc]
      rw [hnew]
      cases acc.find? (fun v => v.channel == c) with
      | none => rfl
      | some v => rfl
    · rw [if_neg ht]
  | some v =>
    dsimp only
    by_cases ht : diffTruthy r.diff = true
    · rw [if_pos ht]
      rw [find?_map_channel (avgUpd r.channel (r.diff.getD 0))
        (avgUpd_channel r.channel (r.diff.getD 0)) acc c]
      cases hfc : acc.find? (fun w => w.channel == c) with
      | none => rfl
      | some w =>
        have hwc : w.channel = c := by
          have hx := List.find?_some hfc
          simpa using hx
        have hwr : ¬ ((w.channel == r.channel) = true) := by
          rw [hwc]
          simp
          exact hcr
        show some (avgUpd r.channel (r.diff.getD 0) w) = some w
        unfold avgUpd
        rw [if_neg hwr]
    · rw [if_neg ht]

/-- Folding `avgStep` over the records: for each channel, an existing
accumulator entry gains the sum and count of that channel's truthy diffs,
and a channel without an entry gets one exactly when it has a truthy
diff (sum of truthy diffs, average 0, count of truthy diffs). -/
theorem avgFold_find (rs : List RecElement) (acc : List ResultAVG) (c : Nat) :
    (rs.foldl avgStep acc).find? (fun v => v.channel == c) =
      match acc.find? (fun v => v.channel == c) with
      | some v =>
        some { v with
                sum := v.sum + (nzDiffs c rs).sum,
                count := v.count + (nzDiffs c rs).length }
      | none =>
        if (nzDiffs c rs).isEmpty then none
        else some (ResultAVG.mk c (nzDiffs c rs).sum 0 (nzDiffs c rs).length) := by
  induction rs generalizing acc with
  | nil =>
    rw [List.foldl_nil]
    cases hfc : acc.find? (fun v => v.channel == c) with
    | none => rfl
    | some v =>
      show some v = some { v with sum := v.sum + ([] : List ℚ).sum, count := v.count + 0 }
      simp
  | cons r t ih =>
    rw [List.foldl_cons]
    by_cases hch : (r.channel == c) = true
    · have hcc : r.channel = c := by simpa using hch
      subst hcc
      by_cases ht : diffTruthy r.diff = true
      · obtain ⟨d, hd⟩ : ∃ d, r.diff = some d := by
          cases hdc : r.diff with
          | none =>
            rw [hdc] at ht
            exact absurd ht (by simp [diffTruthy])
          | some q => exact ⟨q, rfl⟩
        have hnz : nzDiffs r.channel (r :: t) = d :: nzDiffs r.channel t := by
          rw [nzDiffs_cons, if_pos rfl, if_pos ht, hd]
          rfl
        cases hacc : acc.find? (fun value => value.channel == r.channel) with
        | none =>
          have hstep : avgStep acc r = acc ++ [ResultAVG.mk r.channel d 0 1] := by
            unfold avgStep
            rw [hacc]
            dsimp only
            rw [if_pos ht, hd]
            rfl
          have hfind' : (acc ++ [ResultAVG.mk r.channel d 0 1]).find?
              (fun v => v.channel == r.channel) = some (ResultAVG.mk r.channel d 0 1) := by
            rw [List.find?_append, hacc]
            show ([ResultAVG.mk r.channel d 0 1].find? (fun v => v.channel == r.channel)) = _
            simp [List.find?]
          rw [hstep, ih, hfind', hnz]
          dsimp only
          simp [Nat.add_comm]
        | some v =>
          have hstep : avgStep acc r = acc.map (avgUpd r.channel d) := by
            unfold avgStep
            rw [hacc]
            dsimp only
            rw [if_pos ht, hd]
            rfl
          have hv := List.find?_some hacc
          have hfind' : (acc.map (avgUpd r.channel d)).find?
              (fun v => v.channel == r.channel) =
              some { v with sum := v.sum + d, count := v.count + 1 } := by
            rw [find?_map_channel (avgUpd r.channel d) (avgUpd_channel r.channel d) acc
              r.channel, hacc]
            show some (avgUpd r.channel d v) = _
            unfold avgUpd
            rw [if_pos hv]
          rw [hstep, ih, hfind', hnz]
          dsimp only
          simp only [List.sum_cons, List.length_cons, Option.some.injEq, ResultAVG.mk.injEq,
            true_and, and_true]
          constructor
          · ring
          · omega
      · have ht' : diffTruthy r.diff = false := by
          cases hd : diffTruthy r.diff with
          | false => rfl
          | true => exact absurd hd ht
        have hnz : nzDiffs r.channel (r :: t) = nzDiffs r.channel t := by
          rw [nzDiffs_cons, if_pos rfl, if_neg (by rw [ht']; simp)]
          rfl
        rw [avgStep_falsy acc r ht', ih, hnz]
    · have hch' : (r.channel == c) = false := by
        cases hd : (r.channel == c) with
        | false => rfl
        | true => exact absurd hd hch
      have hnz : nzDiffs c (r :: t) = nzDiffs c t := by
        rw [nzDiffs_cons, if_neg (by simpa using hch')]
        rfl
      rw [ih, find?_avgStep_other acc r c hch', hnz]

/-- The truthy diffs are the nonzero diffs. -/
theorem nzDiffs_eq_filter (c : Nat) (rs : List RecElement) :
    nzDiffs c rs = (diffsOf c rs).filter (fun d => d != 0) := by
  induction rs with
  | nil => rfl
  | cons r t ih =>
    rw [nzDiffs_cons, diffsOf_cons, List.filter_append, ih]
    congr 1
    by_cases h1 : r.channel = c
    · rw [if_pos h1, if_pos h1]
      cases hd : r.diff with
      | none => rfl
      | some q =>
        by_cases hq : q = 0
        · subst hq
          rw [show diffTruthy (some (0:ℚ)) = false from rfl]
          simp
        · have hq' : (q != 0) = true := by simpa using hq
          rw [show diffTruthy (some q) = (q != 0) from rfl, hq']
          simp [hq']
    · rw [if_neg h1, if_neg h1]
      rfl

/-- Per-channel characterization of `getAvgSum`: a channel appears in the
output iff it has a truthy (nonzero) diff, and its entry carries the
rounded sum of all its diffs, the count of its nonzero-diff records, and
the rounded quotient of the rounded sum by that count. -/
theorem getAvgSum_find (ms : List Measurement) (tz : String) (c : Nat) :
    (getAvgSum ms tz).find? (fun v => v.channel == c) =
      (if (nzDiffs c (getDetails ms tz "hourly" false)).isEmpty then none
       else some (ResultAVG.mk c
        (roundToFourDecimals ((diffsOf c (getDetails ms tz "hourly" false)).sum))
        (roundToFourDecimals
          (roundToFourDecimals ((diffsOf c (getDetails ms tz "hourly" false)).sum) /
            ((nzDiffs c (getDetails ms tz "hourly" false)).length : ℚ)))
        ((nzDiffs c (getDetails ms tz "hourly" false)).length))) := by
  unfold getAvgSum
  rw [find?_map_channel avgRound (fun v => rfl) _ c, avgFold_find]
  cases hne : (nzDiffs c (getDetails ms tz "hourly" false)).isEmpty with
  | true => rfl
  | false =>
    rw [nzDiffs_sum_eq]
    rfl

/-- One channel with values 10, 11, 13, 16: hourly diffs 1, 2, 3. -/
def c5Example : List Measurement :=
  [⟨1, 10, 10, 1⟩, ⟨2, 20, 11, 1⟩, ⟨3, 30, 13, 1⟩, ⟨4, 40, 16, 1⟩]

/-- **C5 (amended).** `summarize` returns per channel the rounded sum of
all its hourly diffs, a count of its *nonzero*-diff records (zero diffs
are JS-falsy and are skipped), and the rounded quotient of the rounded
sum by that count; for one channel whose hourly diffs are [1, 2, 3] it
returns sum 6, avg 2, count 3. -/
theorem c5_summary (ms : List Measurement) (tz : String) (c : Nat) :
    ((getAvgSum ms tz).find? (fun v => v.channel == c) =
      (if (nzDiffs c (getDetails ms tz "hourly" false)).isEmpty then none
       else some (ResultAVG.mk c
        (roundToFourDecimals ((diffsOf c (getDetails ms tz "hourly" false)).sum))
        (roundToFourDecimals
          (roundToFourDecimals ((diffsOf c (getDetails ms tz "hourly" false)).sum) /
            ((nzDiffs c (getDetails ms tz "hourly" false)).length : ℚ)))
        ((nzDiffs c (getDetails ms tz "hourly" false)).length)))) ∧
    diffsOf 1 (getDetails c5Example "UTC" "hourly" false) = [1, 2, 3] ∧
    (getAvgSum c5Example "UTC").find? (fun v => v.channel == 1) =
      some (ResultAVG.mk 1 6 2 3) := by
  have hD : diffsOf 1 (getDetails c5Example "UTC" "hourly" false) = [1, 2, 3] := by
    obtain ⟨-, hdiffs, -⟩ := hourlyLoop_inv c5Example
    rw [getDetails_hourly_eq_loop, hdiffs 1]
    dsimp only
    rw [show chanValues 1 c5Example = [10, 11, 13, 16] from by simp [chanValues, c5Example]]
    rw [show pairDiffs [10, 11, 13, 16] = [roundToFourDecimals (11 - 10),
      roundToFourDecimals (13 - 11), roundToFourDecimals (16 - 13)] from rfl]
    norm_num [roundToFourDecimals, jsRound]
  have hnz : nzDiffs 1 (getDetails c5Example "UTC" "hourly" false) = [1, 2, 3] := by
    rw [nzDiffs_eq_filter, hD]
    have h1 : ((1:ℚ) != 0) = true := bne_iff_ne.mpr (by norm_num)
    have h2 : ((2:ℚ) != 0) = true := bne_iff_ne.mpr (by norm_num)
    have h3 : ((3:ℚ) != 0) = true := bne_iff_ne.mpr (by norm_num)
    simp [List.filter, h1, h2, h3]
  have hfind := getAvgSum_find c5Example "UTC" 1
  rw [hnz, hD] at hfind
  refine ⟨getAvgSum_find ms tz c, hD, ?_⟩
  rw [hfind]
  norm_num [roundToFourDecimals, jsRound]

/-- One channel with values 5, 5, 7: hourly diffs 0 and 2, one of them
zero. -/
def c5CexInput : List Measurement := [⟨1, 10, 5, 1⟩, ⟨2, 20, 5, 1⟩, ⟨3, 30, 7, 1⟩]

/-- **C5 counterexample.** The claim's "count = the number of
diff-bearing records" fails: this channel has two diff-bearing hourly
records (diffs 0 and 2), but `getAvgSum` skips the JS-falsy zero diff and
returns count 1 and average 2 (the claim predicts count 2, average 1). -/
theorem c5_counterexample :
    diffsOf 1 (getDetails c5CexInput "UTC" "hourly" false) = [0, 2] ∧
    (getAvgSum c5CexInput "UTC").find? (fun v => v.channel == 1) =
      some (ResultAVG.mk 1 2 2 1) := by
  have hD : diffsOf 1 (getDetails c5CexInput "UTC" "hourly" false) = [0, 2] := by
    obtain ⟨-, hdiffs, -⟩ := hourlyLoop_inv c5CexInput
    rw [getDetails_hourly_eq_loop, hdiffs 1]
    dsimp only
    rw [show chanValues 1 c5CexInput = [5, 5, 7] from by simp [chanValues, c5CexInput]]
    rw [show pairDiffs [5, 5, 7] = [roundToFourDecimals (5 - 5),
      roundToFourDecimals (7 - 5)] from rfl]
    norm_num [roundToFourDecimals, jsRound]
  have hnz : nzDiffs 1 (getDetails c5CexInput "UTC" "hourly" false) = [2] := by
    rw [nzDiffs_eq_filter, hD]
    have h2 : ((2:ℚ) != 0) = true := bne_iff_ne.mpr (by norm_num)
    simp [List.filter, bne_self_eq_false, h2]
  have hfind := getAvgSum_find c5CexInput "UTC" 1
  rw [hnz, hD] at hfind
  refine ⟨hD, ?_⟩
  rw [hfind]
  norm_num [roundToFourDecimals, jsRound]

/-! ### C9: ingestion -/

/-- A line whose regex match succeeds, whose channel digits are enabled,
and whose tail has a decimal prefix (`parseFloat` succeeds). -/
def validEnabledLine (channels : List (List Char)) (line : List Char) : Bool :=
  match matchChannelLine line with
  | some (ds, tail) => channels.contains ds && (parseFloatQ tail).isSome
  | none => false

/-- A line ingestion silently skips: the regex match fails, or the
captured channel digits are not in the enabled set. -/
def skippableLine (channels : List (List Char)) (line : List Char) : Bool :=
  match matchChannelLine line with
  | some (ds, _) => !(channels.contains ds)
  | none => true

/-- Ingesting any list of lines each of which is either valid-and-enabled
or skipped produces exactly one row per valid enabled line — skipped
lines store nothing — each row hour-truncated, with channel and value
taken from its line's regex captures. -/
theorem procLines_rows (t : Nat) (channels : List (List Char)) (lines : List (List Char))
    (h : ∀ l ∈ lines, validEnabledLine channels l = true ∨
      skippableLine channels l = true) :
    (lines.filterMap (lineToRow t channels)).length =
      (lines.filter (validEnabledLine channels)).length ∧
    ∀ row ∈ lines.filterMap (lineToRow t channels),
      row.recorded_time = t ∧
      ∃ l ∈ lines, ∃ ds tail q, matchChannelLine l = some (ds, tail) ∧
        channels.contains ds = true ∧ parseFloatQ tail = some q ∧
        row.channel = digitsToNat ds ∧ row.measured_value = q * 1000 := by
  induction lines with
  | nil => simp
  | cons l ls ih =>
    have hrest := ih (fun l' hl' => h l' (List.mem_cons_of_mem _ hl'))
    rcases h l (List.mem_cons_self _ _) with hv | hs
    · have hl := hv
      unfold validEnabledLine at hl
      cases hm : matchChannelLine l with
      | none =>
        rw [hm] at hl
        exact absurd hl (by simp)
      | some p =>
        obtain ⟨ds, tail⟩ := p
        rw [hm] at hl
        dsimp only at hl
        have hc : channels.contains ds = true := by
          cases hcc : channels.contains ds with
          | true => rfl
          | false =>
            rw [hcc] at hl
            exact absurd hl (by simp)
        obtain ⟨q, hq⟩ : ∃ q, parseFloatQ tail = some q := by
          cases hp : parseFloatQ tail with
          | some q => exact ⟨q, rfl⟩
          | none =>
            rw [hc, hp] at hl
            exact absurd hl (by simp)
        have hrow : lineToRow t channels l =
            some (InsertedRow.mk (digitsToNat ds) (q * 1000) t) := by
          unfold lineToRow
          rw [hm]
          dsimp only
          rw [if_pos hc, hq]
        rw [List.filterMap_cons, hrow, List.filter_cons, if_pos hv]
        constructor
        · simp only [List.length_cons, hrest.1]
        · intro row hrow'
          rcases List.mem_cons.mp hrow' with rfl | hmem
          · exact ⟨rfl, l, List.mem_cons_self _ _, ds, tail, q, hm, hc, hq, rfl, rfl⟩
          · obtain ⟨ht, l', hl', rest⟩ := hrest.2 row hmem
            exact ⟨ht, l', List.mem_cons_of_mem _ hl', rest⟩
    · have hnone : lineToRow t channels l = none := by
        unfold skippableLine at hs
        unfold lineToRow
        cases hm : matchChannelLine l with
        | none => rfl
        | some p =>
          obtain ⟨ds, tail⟩ := p
          rw [hm] at hs
          dsimp only at hs
          have hcf : channels.contains ds = false := by
            cases hcc : channels.contains ds with
            | false => rfl
            | true =>
              rw [hcc] at hs
              exact absurd hs (by decide)
          dsimp only
          rw [if_neg (by rw [hcf]; exact Bool.noConfusion)]
      have hvf : validEnabledLine channels l = false := by
        unfold skippableLine at hs
        unfold validEnabledLine
        cases hm : matchChannelLine l with
        | none => rfl
        | some p =>
          obtain ⟨ds, tail⟩ := p
          rw [hm] at hs
          dsimp only at hs ⊢
          have hcf : channels.contains ds = false := by
            cases hcc : channels.contains ds with
            | false => rfl
            | true =>
              rw [hcc] at hs
              exact absurd hs (by decide)
          rw [hcf]
          rfl
      rw [List.filterMap_cons, hnone, List.filter_cons,
        if_neg (by rw [hvf]; exact Bool.noConfusion)]
      refine ⟨hrest.1, ?_⟩
      intro row hmem
      obtain ⟨ht, l', hl', rest⟩ := hrest.2 row hmem
      exact ⟨ht, l', List.mem_cons_of_mem _ hl', rest⟩

/-- **C9 (amended).** For a response whose every line either matches the
line regex with an enabled channel and a decimal-prefixed tail, or is
skipped (regex failure, or disabled channel — both without error),
ingestion at time `T` stores exactly one row per valid enabled line and
nothing for the skipped lines: the row count equals the number of valid
enabled lines, and each row has `recorded_time = T` truncated to the top
of the hour, channel = the captured digits, and `measured_value` = the
parsed leading decimal (with optional exponent, JS `parseFloat`) of the
tail × 1000.  (Unlike the original claim, the regex tail is `(.*)`, so
trailing garbage after the decimal is accepted — see the counterexample.
The one excluded case is a matching enabled line whose tail starts with
no number at all: `parseFloat` gives `NaN`, whose interpolation makes the
`INSERT` itself fail, storing nothing but raising an error.) -/
theorem c9_ingestion (currentTime : Nat) (response : List Char)
    (channels : List (List Char))
    (h : ∀ l ∈ splitLines response, validEnabledLine channels l = true ∨
      skippableLine channels l = true) :
    (processMeasurements currentTime response channels).length =
      ((splitLines response).filter (validEnabledLine channels)).length ∧
    ∀ row ∈ processMeasurements currentTime response channels,
      row.recorded_time = hourTrunc currentTime ∧
      ∃ l ∈ splitLines response, ∃ ds tail q, matchChannelLine l = some (ds, tail) ∧
        channels.contains ds = true ∧ parseFloatQ tail = some q ∧
        row.channel = digitsToNat ds ∧ row.measured_value = q * 1000 :=
  procLines_rows (hourTrunc currentTime) channels (splitLines response) h

/-- Witness for `c9_ingestion`: a response mixing two valid enabled lines
(one with an exponent tail `1e3`), a line failing the regex, and a line
for the disabled channel 9, ingested at unix time 7800 (before
truncation), stores exactly the two valid lines' rows at 7200 (top of
the hour). -/
theorem c9_ingestion_witness :
    (∀ l ∈ splitLines ("channel_1 : 2.5\nchannel_2 : 1e3\njunk\nchannel_9 : 4.5".toList),
      validEnabledLine ["1".toList, "2".toList] l = true ∨
      skippableLine ["1".toList, "2".toList] l = true) ∧
    ((processMeasurements 7800
        ("channel_1 : 2.5\nchannel_2 : 1e3\njunk\nchannel_9 : 4.5".toList)
        ["1".toList, "2".toList]).length =
      ((splitLines ("channel_1 : 2.5\nchannel_2 : 1e3\njunk\nchannel_9 : 4.5".toList)).filter
        (validEnabledLine ["1".toList, "2".toList])).length ∧
    ∀ row ∈ processMeasurements 7800
        ("channel_1 : 2.5\nchannel_2 : 1e3\njunk\nchannel_9 : 4.5".toList)
        ["1".toList, "2".toList],
      row.recorded_time = hourTrunc 7800 ∧
      ∃ l ∈ splitLines ("channel_1 : 2.5\nchannel_2 : 1e3\njunk\nchannel_9 : 4.5".toList),
        ∃ ds tail q, matchChannelLine l = some (ds, tail) ∧
        (["1".toList, "2".toList]).contains ds = true ∧ parseFloatQ tail = some q ∧
        row.channel = digitsToNat ds ∧ row.measured_value = q * 1000) :=
  ⟨by decide, c9_ingestion 7800
    ("channel_1 : 2.5\nchannel_2 : 1e3\njunk\nchannel_9 : 4.5".toList)
    ["1".toList, "2".toList] (by decide)⟩

/-- JS `parseFloat` exponent handling carried into the stored value: the
tail `1e3` parses to 1000, so an enabled `channel_1 : 1e3` line stores
`measured_value` 1000 × 1000 = 1000000. -/
theorem parseFloatQ_exponent :
    parseFloatQ ("1e3".toList) =
      some ((1:ℚ) * ((1:Nat) : ℚ) * (10:ℚ) ^ ((3:Nat) : ℤ)) ∧
    ((1:ℚ) * ((1:Nat) : ℚ) * (10:ℚ) ^ ((3:Nat) : ℤ)) * 1000 = 1000000 := by
  refine ⟨rfl, ?_⟩
  rw [zpow_natCast]
  norm_num

/-- **C9 counterexample.** The line `channel_5 : 1.5abc` does not match
the claim's pattern `channel_<digits> : <decimal>` (its tail is not a
decimal), yet ingestion stores a row for it — channel 5, value
`parseFloat("1.5abc") * 1000 = 1500`, hour-truncated time — because the
source regex captures `(.*)` and `parseFloat` reads the leading decimal
prefix, so the claim's "lines that do not match produce no row" is
false. -/
theorem c9_counterexample :
    matchChannelLine ("channel_5 : 1.5abc".toList) =
      some ("5".toList, "1.5abc".toList) ∧
    (processMeasurements 1000000 ("channel_5 : 1.5abc".toList) ["5".toList]).length = 1 ∧
    ∀ row ∈ processMeasurements 1000000 ("channel_5 : 1.5abc".toList) ["5".toList],
      row.channel = 5 ∧ row.recorded_time = 997200 ∧ row.measured_value = 1500 := by
  refine ⟨by decide, by decide, ?_⟩
  intro row hrow
  have hrows : processMeasurements 1000000 ("channel_5 : 1.5abc".toList) ["5".toList] =
      [InsertedRow.mk 5
        (((1:ℚ) * (((1:Nat) : ℚ) + ((5:Nat) : ℚ) / (10:ℚ) ^ (1:Nat)) *
          (10:ℚ) ^ (0:ℤ)) * 1000) 997200] := rfl
  rw [hrows] at hrow
  simp only [List.mem_singleton] at hrow
  subst hrow
  refine ⟨rfl, rfl, ?_⟩
  show ((1:ℚ) * (((1:Nat) : ℚ) + ((5:Nat) : ℚ) / (10:ℚ) ^ (1:Nat)) *
    (10:ℚ) ^ (0:ℤ)) * 1000 = 1500
  rw [zpow_zero]
  norm_num

/-! ### C7: the sharded range read -/

/-- The spec's reading of the optional channel filter as a row predicate
(written from the spec's words, for comparison with the SQL-derived
`sqlChannelCond`): no filter accepts everything, a single-channel filter
accepts exactly that channel, a set filter accepts its members. -/
def specChannelMatches : ChannelFilter → Nat → Bool
  | none, _ => true
  | some (.inl c), ch => ch == c
  | some (.inr l), ch => l.contains ch

/-- The range read as the spec words it: iterate the months from the one
containing `fromSec` to the one containing `toSec`; every existing shard
contributes its rows with `recorded_time` in the window and channel
accepted by the filter, ordered by (recorded_time, channel); missing
shards contribute nothing. -/
def specRangeRead (shards : Nat → Option (List Measurement)) (fromSec toSec : Nat)
    (ch : ChannelFilter) : List Measurement :=
  (List.range (monthIndex toSec + 1 - monthIndex fromSec)).flatMap (fun i =>
    match shards (monthIndex fromSec + i) with
    | none => []
    | some rows => measSort (rows.filter (fun m =>
        decide (fromSec ≤ m.recorded_time) && decide (m.recorded_time ≤ toSec)
          && specChannelMatches ch m.channel)))

/-- One month shard with channels 2, 5, 4, 7 (January 1970). -/
def c7Shard : List Measurement :=
  [⟨1, 1200, 5, 2⟩, ⟨2, 1100, 6, 5⟩, ⟨3, 1100, 7, 4⟩, ⟨4, 1300, 8, 7⟩]

/-- A shard map holding only the January 1970 shard. -/
def c7Shards : Nat → Option (List Measurement) :=
  fun m => if m = monthIndex 1000 then some c7Shard else none

/-- **C7 (amended).** For every channel filter other than the single
channel 0 (which is JS-falsy and ignored — see C10), the range read
equals the spec-side description: months from `monthIndex fromSec` to
`monthIndex toSec`, existing shards contributing their windowed rows with
channels accepted by the filter, sorted by (recorded_time, channel),
missing shards contributing nothing.  The closed conjuncts check the
set filter [5, 7], the single filter 5, the (recorded_time, channel)
ordering, and that a range extending into a month with no shard adds no
rows. -/
theorem c7_range_read (shards : Nat → Option (List Measurement)) (fromSec toSec : Nat)
    (ch : ChannelFilter) (h : ch ≠ some (.inl 0)) :
    getMeasurementsFromDBs shards fromSec toSec ch =
      specRangeRead shards fromSec toSec ch ∧
    (getMeasurementsFromDBs c7Shards 1000 2000 (some (.inr [5, 7]))).map
      Measurement.channel = [5, 7] ∧
    (getMeasurementsFromDBs c7Shards 1000 2000 (some (.inl 5))).map
      Measurement.channel = [5] ∧
    (getMeasurementsFromDBs c7Shards 1000 2000 none).map
      Measurement.channel = [4, 5, 2, 7] ∧
    (getMeasurementsFromDBs c7Shards 1000 3000000 none).map
      Measurement.channel = [4, 5, 2, 7] := by
  refine ⟨?_, by decide, by decide, by decide, by decide⟩
  have hcond : ∀ m, sqlChannelCond ch m = specChannelMatches ch m.channel := by
    intro m
    cases ch with
    | none => rfl
    | some s =>
      cases s with
      | inl c =>
        have hc0 : c ≠ 0 := by
          intro hc
          exact h (by rw [hc])
        have ht : (c != 0) = true := by simpa using hc0
        show (if (c != 0) = true then (m.channel == c) else true) = (m.channel == c)
        rw [ht]
        rfl
      | inr l => rfl
  have hfun : (fun m => decide (fromSec ≤ m.recorded_time)
        && decide (m.recorded_time ≤ toSec) && sqlChannelCond ch m)
      = (fun m => decide (fromSec ≤ m.recorded_time)
        && decide (m.recorded_time ≤ toSec) && specChannelMatches ch m.channel) := by
    funext m
    rw [hcond m]
  unfold getMeasurementsFromDBs specRangeRead queryShard
  rw [hfun]

/-- Witness for `c7_range_read` at the single-channel filter 5. -/
theorem c7_range_read_witness :
    (some (Sum.inl 5) : ChannelFilter) ≠ some (.inl 0) ∧
    (getMeasurementsFromDBs c7Shards 1000 2000 (some (.inl 5)) =
      specRangeRead c7Shards 1000 2000 (some (.inl 5)) ∧
    (getMeasurementsFromDBs c7Shards 1000 2000 (some (.inr [5, 7]))).map
      Measurement.channel = [5, 7] ∧
    (getMeasurementsFromDBs c7Shards 1000 2000 (some (.inl 5))).map
      Measurement.channel = [5] ∧
    (getMeasurementsFromDBs c7Shards 1000 2000 none).map
      Measurement.channel = [4, 5, 2, 7] ∧
    (getMeasurementsFromDBs c7Shards 1000 3000000 none).map
      Measurement.channel = [4, 5, 2, 7]) :=
  ⟨by decide, c7_range_read c7Shards 1000 2000 (some (.inl 5)) (by decide)⟩

/-- **C7 counterexample.** With the single-channel filter 0 the range
read returns rows of channels 4, 5, 2, 7 — not "only rows with channel
∈ {0}" as the claim's universal filter quantification demands — because
the filter 0 is JS-falsy and no channel clause is appended. -/
theorem c7_counterexample :
    (getMeasurementsFromDBs c7Shards 1000 2000 (some (.inl 0))).map
      Measurement.channel = [4, 5, 2, 7] ∧ (4 : Nat) ≠ 0 :=
  ⟨by decide, by decide⟩

end Powermeter
